import Mathlib

/-!
# CHIP-8 interpreter core (`Project1/Chip8.cpp`)

A shallow embedding of the `Chip8` class: the machine state is a record of its
data members, every instruction handler is a function on that record, and the
fetch/decode/execute driver `Cycle` composes them through the function tables.

Conventions of the embedding

* Every integer member is a `Nat`; the C++ width is applied with an explicit
  `% 2^w` wherever a result can leave the width (`uint8_t` 256, `uint16_t`
  65536).  `Valid` states that each member holds a value of its C++ type.
* Every array member is a function `Nat → Nat` from index to value.  The cells
  with an index inside the declared extent are the array; an access whose index
  is outside the extent is undefined in C++, and is modelled by the result
  `Except.error (a, s)`, where `a` names the array and the index and `s` is the
  state reached when the access is attempted.
* Handlers whose only array accesses are register accesses through an opcode
  nibble (always `< 16`) or constant indices cannot leave an array and are plain
  functions `Chip8 → Chip8`.
-/

/-- The data members of `class Chip8` (lines 11-21 and 33). -/
structure Chip8 where
  /-- Member `uint8_t registers[16]`. -/
  registers : Nat → Nat
  /-- Member `uint8_t memory[4096]`. -/
  memory : Nat → Nat
  /-- Member `uint16_t index`. -/
  index : Nat
  /-- Member `uint16_t pc`. -/
  pc : Nat
  /-- Member `uint16_t stack[16]`. -/
  stack : Nat → Nat
  /-- Member `uint8_t sp`. -/
  sp : Nat
  /-- Member `uint8_t delayTimer`. -/
  delayTimer : Nat
  /-- Member `uint8_t soundTimer`. -/
  soundTimer : Nat
  /-- Member `uint8_t keypad[16]`. -/
  keypad : Nat → Nat
  /-- Member `uint32_t video[64 * 32]`. -/
  video : Nat → Nat
  /-- Member `uint16_t opcode`. -/
  opcode : Nat
  /-- The values that `randByte(randGen)` will return, in order. -/
  randGen : Nat → Nat

namespace Chip8

/-- An array access outside the declared extent of the array. -/
inductive Access where
  | memory (i : Nat)
  | stack (i : Nat)
  | keypad (i : Nat)
  | video (i : Nat)
  | table (i : Nat)
  | table0 (i : Nat)
  | table8 (i : Nat)
  | tableE (i : Nat)
  | tableF (i : Nat)
  deriving DecidableEq, Repr

/-- Outcome of code that indexes arrays: the new value, or the out-of-range
access together with the state in which it is attempted. -/
abbrev Exec (α : Type) := Except (Access × Chip8) α

/-- The member-function-pointer type `Chip8Func` (line 38). -/
abbrev Chip8Func := Chip8 → Exec Chip8

def START_ADDRESS : Nat := 0x200
def FONTSET_START_ADDRESS : Nat := 0x50
def VIDEO_WIDTH : Nat := 64
def VIDEO_HEIGHT : Nat := 32
def FONTSET_SIZE : Nat := 80

/-- The built-in glyphs (lines 159-177). -/
def fontset : List Nat :=
  [0xF0, 0x90, 0x90, 0x90, 0xF0,
   0x20, 0x60, 0x20, 0x20, 0x70,
   0xF0, 0x10, 0xF0, 0x80, 0xF0,
   0xF0, 0x10, 0xF0, 0x10, 0xF0,
   0x90, 0x90, 0xF0, 0x10, 0x10,
   0xF0, 0x80, 0xF0, 0x10, 0xF0,
   0xF0, 0x80, 0xF0, 0x90, 0xF0,
   0xF0, 0x10, 0x20, 0x40, 0x40,
   0xF0, 0x90, 0xF0, 0x90, 0xF0,
   0xF0, 0x90, 0xF0, 0x10, 0xF0,
   0xF0, 0x90, 0xF0, 0x90, 0x90,
   0xE0, 0x90, 0xE0, 0x90, 0xE0,
   0xF0, 0x80, 0x80, 0x80, 0xF0,
   0xE0, 0x90, 0x90, 0x90, 0xE0,
   0xF0, 0x80, 0xF0, 0x80, 0xF0,
   0xF0, 0x80, 0xF0, 0x80, 0x80]

/-- Each member holds a value of its C++ type; for an array member, each
cell inside the declared extent does. -/
structure Valid (s : Chip8) : Prop where
  registers : ∀ i, i < 16 → s.registers i < 256
  memory : ∀ i, i < 4096 → s.memory i < 256
  index : s.index < 65536
  pc : s.pc < 65536
  stack : ∀ i, i < 16 → s.stack i < 65536
  sp : s.sp < 256
  delayTimer : s.delayTimer < 256
  soundTimer : s.soundTimer < 256
  keypad : ∀ i, i < 16 → s.keypad i < 256
  video : ∀ i, i < 64 * 32 → s.video i < 4294967296
  opcode : s.opcode < 65536

/-- A counted loop `for (i = start; i < start + count; ++i) body`, for a body
that changes neither `i` nor the bound: `count` is the number of iterations
left and `i` the current value of the loop variable. -/
def forLoop (body : Nat → Chip8 → Exec Chip8) : Nat → Nat → Chip8 → Exec Chip8
  | 0, _, s => .ok s
  | count + 1, i, s => body i s >>= forLoop body count (i + 1)

/-- Read of `memory[i]`. -/
def readMemory (s : Chip8) (i : Nat) : Exec Nat :=
  if i < 4096 then .ok (s.memory i) else .error (.memory i, s)

/-- Assignment `memory[i] = v` (`v` already converted to `uint8_t`). -/
def writeMemory (i v : Nat) (s : Chip8) : Exec Chip8 :=
  if i < 4096 then .ok { s with memory := Function.update s.memory i v }
  else .error (.memory i, s)

/-- The state after `Chip8::Chip8()` (lines 47-122), apart from the function
tables, which are never reassigned and are the definitions `table`, `table0`,
`table8`, `tableE`, `tableF` below.  All members are value-initialised to zero
except `opcode`, which has no initialiser and is a parameter here, as is the
byte sequence of the random generator. -/
def new (opcode0 : Nat) (rand : Nat → Nat) : Chip8 :=
  { registers := fun _ => 0
    memory := (List.range FONTSET_SIZE).foldl
      (fun m i => Function.update m (FONTSET_START_ADDRESS + i) (fontset.getD i 0))
      (fun _ => 0)
    index := 0
    pc := START_ADDRESS
    stack := fun _ => 0
    sp := 0
    delayTimer := 0
    soundTimer := 0
    keypad := fun _ => 0
    video := fun _ => 0
    opcode := opcode0
    randGen := rand }

/-- Copy loop of `LoadROM` (lines 144-147) for a file that opened:
`buffer` is the content of the file, one value per `char`, `size` its length.
The file operations themselves are outside the model; `none` is a file that
could not be opened. -/
def LoadROM (file : Option (List Nat)) (s : Chip8) : Exec Chip8 :=
  match file with
  | some buffer =>
    forLoop (fun i s1 => writeMemory (START_ADDRESS + i) (buffer.getD i 0 % 256) s1)
      buffer.length 0 s
  | none => .ok s

/-! ## Instructions -/

/-- CLS. -/
def OP_00E0 (s : Chip8) : Chip8 :=
  { s with video := fun _ => 0 }

/-- RET. -/
def OP_00EE (s : Chip8) : Exec Chip8 :=
  let s1 := { s with sp := (s.sp + 256 - 1) % 256 }
  if s1.sp < 16 then .ok { s1 with pc := s1.stack s1.sp }
  else .error (.stack s1.sp, s1)

/-- JP addr. -/
def OP_1nnn (s : Chip8) : Chip8 :=
  let address := s.opcode &&& 0x0FFF
  { s with pc := address }

/-- CALL addr. -/
def OP_2nnn (s : Chip8) : Exec Chip8 :=
  let address := s.opcode &&& 0x0FFF
  if s.sp < 16 then
    let s1 := { s with stack := Function.update s.stack s.sp s.pc }
    let s2 := { s1 with sp := (s1.sp + 1) % 256 }
    .ok { s2 with pc := address }
  else .error (.stack s.sp, s)

/-- SE Vx, byte. -/
def OP_3xkk (s : Chip8) : Chip8 :=
  let Vx := (s.opcode &&& 0x0F00) >>> 8
  let byte := s.opcode &&& 0x00FF
  if s.registers Vx = byte then { s with pc := (s.pc + 2) % 65536 } else s

/-- SNE Vx, byte. -/
def OP_4xkk (s : Chip8) : Chip8 :=
  let Vx := (s.opcode &&& 0x0F00) >>> 8
  let byte := s.opcode &&& 0x00FF
  if s.registers Vx ≠ byte then { s with pc := (s.pc + 2) % 65536 } else s

/-- SE Vx, Vy. -/
def OP_5xy0 (s : Chip8) : Chip8 :=
  let Vx := (s.opcode &&& 0x0F00) >>> 8
  let Vy := (s.opcode &&& 0x00F0) >>> 4
  if s.registers Vx = s.registers Vy then { s with pc := (s.pc + 2) % 65536 } else s

/-- LD Vx, byte.  The statement at line 265 is the comparison
`registers[Vx] == byte;`, whose value is discarded. -/
def OP_6xkk (s : Chip8) : Chip8 :=
  s

/-- ADD Vx, byte. -/
def OP_7xkk (s : Chip8) : Chip8 :=
  let Vx := (s.opcode &&& 0x0F00) >>> 8
  let byte := s.opcode &&& 0x00FF
  { s with registers := Function.update s.registers Vx ((s.registers Vx + byte) % 256) }

/-- LD Vx, Vy. -/
def OP_8xy0 (s : Chip8) : Chip8 :=
  let Vx := (s.opcode &&& 0x0F00) >>> 8
  let Vy := (s.opcode &&& 0x00F0) >>> 4
  { s with registers := Function.update s.registers Vx (s.registers Vy) }

/-- OR Vx, Vy. -/
def OP_8xy1 (s : Chip8) : Chip8 :=
  let Vx := (s.opcode &&& 0x0F00) >>> 8
  let Vy := (s.opcode &&& 0x00F0) >>> 4
  { s with registers := Function.update s.registers Vx (s.registers Vx ||| s.registers Vy) }

/-- AND Vx, Vy. -/
def OP_8xy2 (s : Chip8) : Chip8 :=
  let Vx := (s.opcode &&& 0x0F00) >>> 8
  let Vy := (s.opcode &&& 0x00F0) >>> 4
  { s with registers := Function.update s.registers Vx (s.registers Vx &&& s.registers Vy) }

/-- XOR Vx, Vy. -/
def OP_8xy3 (s : Chip8) : Chip8 :=
  let Vx := (s.opcode &&& 0x0F00) >>> 8
  let Vy := (s.opcode &&& 0x00F0) >>> 4
  { s with registers := Function.update s.registers Vx (s.registers Vx ^^^ s.registers Vy) }

/-- ADD Vx, Vy with carry in VF. -/
def OP_8xy4 (s : Chip8) : Chip8 :=
  let Vx := (s.opcode &&& 0x0F00) >>> 8
  let Vy := (s.opcode &&& 0x00F0) >>> 4
  let sum := (s.registers Vx + s.registers Vy) % 65536
  let s1 :=
    if sum > 255 then { s with registers := Function.update s.registers 0xF 1 }
    else { s with registers := Function.update s.registers 0xF 0 }
  { s1 with registers := Function.update s1.registers Vx ((sum &&& 0xFF) % 256) }

/-- SUB Vx, Vy with VF written first. -/
def OP_8xy5 (s : Chip8) : Chip8 :=
  let Vx := (s.opcode &&& 0x0F00) >>> 8
  let Vy := (s.opcode &&& 0x00F0) >>> 4
  let s1 :=
    if s.registers Vx > s.registers Vy then
      { s with registers := Function.update s.registers 0xF 1 }
    else { s with registers := Function.update s.registers 0xF 0 }
  { s1 with registers :=
      Function.update s1.registers Vx ((s1.registers Vx + 256 - s1.registers Vy) % 256) }

/-- SHR Vx. -/
def OP_8xy6 (s : Chip8) : Chip8 :=
  let Vx := (s.opcode &&& 0x0F00) >>> 8
  let s1 := { s with registers := Function.update s.registers 0xF (s.registers Vx &&& 0x1) }
  { s1 with registers := Function.update s1.registers Vx (s1.registers Vx >>> 1) }

/-- SUBN Vx, Vy. -/
def OP_8xy7 (s : Chip8) : Chip8 :=
  let Vx := (s.opcode &&& 0x0F00) >>> 8
  let Vy := (s.opcode &&& 0x00F0) >>> 4
  let s1 :=
    if s.registers Vy > s.registers Vx then
      { s with registers := Function.update s.registers 0xF 1 }
    else { s with registers := Function.update s.registers 0xF 0 }
  { s1 with registers :=
      Function.update s1.registers Vx ((s1.registers Vy + 256 - s1.registers Vx) % 256) }

/-- SHL Vx. -/
def OP_8xyE (s : Chip8) : Chip8 :=
  let Vx := (s.opcode &&& 0x0F00) >>> 8
  let s1 :=
    { s with registers := Function.update s.registers 0xF ((s.registers Vx &&& 0x80) >>> 7) }
  { s1 with registers := Function.update s1.registers Vx ((s1.registers Vx <<< 1) % 256) }

/-- SNE Vx, Vy. -/
def OP_9xy0 (s : Chip8) : Chip8 :=
  let Vx := (s.opcode &&& 0x0F00) >>> 8
  let Vy := (s.opcode &&& 0x00F0) >>> 4
  if s.registers Vx ≠ s.registers Vy then { s with pc := (s.pc + 2) % 65536 } else s

/-- LD I, addr. -/
def OP_Annn (s : Chip8) : Chip8 :=
  let address := s.opcode &&& 0x0FFF
  { s with index := address }

/-- JP V0, addr. -/
def OP_Bnnn (s : Chip8) : Chip8 :=
  let address := s.opcode &&& 0x0FFF
  { s with pc := (s.registers 0 + address) % 65536 }

/-- RND Vx, byte.  The mask is `opcode & 0x00F0` (line 447). -/
def OP_Cxkk (s : Chip8) : Chip8 :=
  let Vx := (s.opcode &&& 0x0F00) >>> 8
  let byte := s.opcode &&& 0x00F0
  { s with
    registers := Function.update s.registers Vx ((s.randGen 0 % 256) &&& byte)
    randGen := fun k => s.randGen (k + 1) }

/-- Body of the inner loop of `OP_Dxyn` (lines 472-486).  The cell of `video`
is read and written only when the sprite pixel is on. -/
def drawPixel (spriteByte xPos yPos row col : Nat) (s : Chip8) : Exec Chip8 :=
  let spritePixel := spriteByte &&& (0x80 >>> col)
  let screenPixel := (yPos + row) * VIDEO_WIDTH + (xPos + col)
  if spritePixel ≠ 0 then
    if screenPixel < 64 * 32 then
      let s1 :=
        if s.video screenPixel = 0xFFFFFFFF then
          { s with registers := Function.update s.registers 0xF 1 }
        else s
      .ok { s1 with
        video := Function.update s1.video screenPixel (s1.video screenPixel ^^^ 0xFFFFFFFF) }
    else .error (.video screenPixel, s)
  else .ok s

/-- Body of the outer loop of `OP_Dxyn` (lines 468-487). -/
def drawRow (xPos yPos row : Nat) (s : Chip8) : Exec Chip8 :=
  readMemory s (s.index + row) >>= fun spriteByte =>
    forLoop (drawPixel spriteByte xPos yPos row) 8 0 s

/-- DRW Vx, Vy, nibble. -/
def OP_Dxyn (s : Chip8) : Exec Chip8 :=
  let Vx := (s.opcode &&& 0x0F00) >>> 8
  let Vy := (s.opcode &&& 0x00F0) >>> 4
  let height := s.opcode &&& 0x000F
  let xPos := (s.registers Vx % VIDEO_WIDTH) % 256
  let yPos := (s.registers Vy % VIDEO_HEIGHT) % 256
  let s1 := { s with registers := Function.update s.registers 0xF 0 }
  forLoop (drawRow xPos yPos) height 0 s1

/-- SKP Vx. -/
def OP_Ex9E (s : Chip8) : Exec Chip8 :=
  let Vx := (s.opcode &&& 0x0F00) >>> 8
  let key := s.registers Vx
  if key < 16 then
    if s.keypad key ≠ 0 then .ok { s with pc := (s.pc + 2) % 65536 } else .ok s
  else .error (.keypad key, s)

/-- SKNP Vx. -/
def OP_ExA1 (s : Chip8) : Exec Chip8 :=
  let Vx := (s.opcode &&& 0x0F00) >>> 8
  let key := s.registers Vx
  if key < 16 then
    if s.keypad key = 0 then .ok { s with pc := (s.pc + 2) % 65536 } else .ok s
  else .error (.keypad key, s)

/-- LD Vx, DT.  The statement at line 524 is the subtraction
`registers[Vx] - delayTimer;`, whose value is discarded. -/
def OP_Fx07 (s : Chip8) : Chip8 :=
  s

/-- The `if`/`else if` chain of `OP_Fx0A` over `keypad[k]`, ..., `keypad[15]`:
the first pressed key, if any. -/
def firstKey (keypad : Nat → Nat) : Nat → Nat → Option Nat
  | 0, _ => none
  | n + 1, k => if keypad k ≠ 0 then some k else firstKey keypad n (k + 1)

/-- LD Vx, K. -/
def OP_Fx0A (s : Chip8) : Chip8 :=
  let Vx := (s.opcode &&& 0x0F00) >>> 8
  match firstKey s.keypad 16 0 with
  | some k => { s with registers := Function.update s.registers Vx k }
  | none => { s with pc := (s.pc + 65536 - 2) % 65536 }

/-- LD DT, Vx. -/
def OP_Fx15 (s : Chip8) : Chip8 :=
  let Vx := (s.opcode &&& 0x0F00) >>> 8
  { s with delayTimer := s.registers Vx }

/-- LD ST, Vx.  The statement at line 620 is `soundTimer += registers[Vx]`. -/
def OP_Fx18 (s : Chip8) : Chip8 :=
  let Vx := (s.opcode &&& 0x0F00) >>> 8
  { s with soundTimer := (s.soundTimer + s.registers Vx) % 256 }

/-- ADD I, Vx. -/
def OP_Fx1E (s : Chip8) : Chip8 :=
  let Vx := (s.opcode &&& 0x0F00) >>> 8
  { s with index := (s.index + s.registers Vx) % 65536 }

/-- LD F, Vx. -/
def OP_Fx29 (s : Chip8) : Chip8 :=
  let Vx := (s.opcode &&& 0x0F00) >>> 8
  let digit := s.registers Vx
  { s with index := (FONTSET_START_ADDRESS + 5 * digit) % 65536 }

/-- LD B, Vx. -/
def OP_Fx33 (s : Chip8) : Exec Chip8 :=
  let Vx := (s.opcode &&& 0x0F00) >>> 8
  let value := s.registers Vx
  writeMemory (s.index + 2) (value % 10) s >>= fun s1 =>
    let value1 := value / 10
    writeMemory (s1.index + 1) (value1 % 10) s1 >>= fun s2 =>
      let value2 := value1 / 10
      writeMemory s2.index (value2 % 10) s2

/-- LD [I], Vx. -/
def OP_Fx55 (s : Chip8) : Exec Chip8 :=
  let Vx := (s.opcode &&& 0x0F00) >>> 8
  forLoop (fun i s1 => writeMemory (s1.index + i) (s1.registers i) s1) (Vx + 1) 0 s

/-- LD Vx, [I]. -/
def OP_Fx65 (s : Chip8) : Exec Chip8 :=
  let Vx := (s.opcode &&& 0x0F00) >>> 8
  forLoop (fun i s1 =>
      readMemory s1 (s1.index + i) >>= fun v =>
        .ok { s1 with registers := Function.update s1.registers i v })
    (Vx + 1) 0 s

def OP_NULL (s : Chip8) : Chip8 :=
  s

/-! ## Function tables and dispatch -/

/-- A handler that cannot leave an array, as a table entry. -/
def total (f : Chip8 → Chip8) : Chip8Func :=
  fun s => .ok (f s)

/-- Array `table0[0xE + 1]` as filled by the constructor (lines 80-90). -/
def table0 (i : Nat) : Option Chip8Func :=
  if i = 0x0 then some (total OP_00E0)
  else if i = 0xE then some OP_00EE
  else if i ≤ 0xE then some (total OP_NULL)
  else none

/-- Array `table8[0xE + 1]` as filled by the constructor (lines 80-101). -/
def table8 (i : Nat) : Option Chip8Func :=
  if i = 0x0 then some (total OP_8xy0)
  else if i = 0x1 then some (total OP_8xy1)
  else if i = 0x2 then some (total OP_8xy2)
  else if i = 0x3 then some (total OP_8xy3)
  else if i = 0x4 then some (total OP_8xy4)
  else if i = 0x5 then some (total OP_8xy5)
  else if i = 0x6 then some (total OP_8xy6)
  else if i = 0x7 then some (total OP_8xy7)
  else if i = 0xE then some (total OP_8xyE)
  else if i ≤ 0xE then some (total OP_NULL)
  else none

/-- Array `tableE[0xE + 1]` as filled by the constructor (lines 80-104). -/
def tableE (i : Nat) : Option Chip8Func :=
  if i = 0x1 then some OP_ExA1
  else if i = 0xE then some OP_Ex9E
  else if i ≤ 0xE then some (total OP_NULL)
  else none

/-- Array `tableF[0x65 + 1]` as filled by the constructor (lines 107-121). -/
def tableF (i : Nat) : Option Chip8Func :=
  if i = 0x07 then some (total OP_Fx07)
  else if i = 0x0A then some (total OP_Fx0A)
  else if i = 0x15 then some (total OP_Fx15)
  else if i = 0x18 then some (total OP_Fx18)
  else if i = 0x1E then some (total OP_Fx1E)
  else if i = 0x29 then some (total OP_Fx29)
  else if i = 0x33 then some OP_Fx33
  else if i = 0x55 then some OP_Fx55
  else if i = 0x65 then some OP_Fx65
  else if i ≤ 0x65 then some (total OP_NULL)
  else none

def Table0 (s : Chip8) : Exec Chip8 :=
  match table0 (s.opcode &&& 0x000F) with
  | some f => f s
  | none => .error (.table0 (s.opcode &&& 0x000F), s)

def Table8 (s : Chip8) : Exec Chip8 :=
  match table8 (s.opcode &&& 0x000F) with
  | some f => f s
  | none => .error (.table8 (s.opcode &&& 0x000F), s)

def TableE (s : Chip8) : Exec Chip8 :=
  match tableE (s.opcode &&& 0x000F) with
  | some f => f s
  | none => .error (.tableE (s.opcode &&& 0x000F), s)

def TableF (s : Chip8) : Exec Chip8 :=
  match tableF (s.opcode &&& 0x00FF) with
  | some f => f s
  | none => .error (.tableF (s.opcode &&& 0x00FF), s)

/-- Array `table[0xF + 1]` as filled by the constructor (lines 62-77). -/
def table (i : Nat) : Option Chip8Func :=
  if i = 0x0 then some Table0
  else if i = 0x1 then some (total OP_1nnn)
  else if i = 0x2 then some OP_2nnn
  else if i = 0x3 then some (total OP_3xkk)
  else if i = 0x4 then some (total OP_4xkk)
  else if i = 0x5 then some (total OP_5xy0)
  else if i = 0x6 then some (total OP_6xkk)
  else if i = 0x7 then some (total OP_7xkk)
  else if i = 0x8 then some Table8
  else if i = 0x9 then some (total OP_9xy0)
  else if i = 0xA then some (total OP_Annn)
  else if i = 0xB then some (total OP_Bnnn)
  else if i = 0xC then some (total OP_Cxkk)
  else if i = 0xD then some OP_Dxyn
  else if i = 0xE then some TableE
  else if i = 0xF then some TableF
  else none

/-! ## Cycle -/

/-- The two timer statements that end `Cycle` (lines 736-746).  The second
one is `-soundTimer;`, a negation whose value is discarded. -/
def timerStep (s : Chip8) : Chip8 :=
  let s1 := if s.delayTimer > 0 then { s with delayTimer := (s.delayTimer + 256 - 1) % 256 } else s
  if s1.soundTimer > 0 then s1 else s1

/-- Fetch, advance `pc`, dispatch on the top nibble, then the timer
statements. -/
def Cycle (s : Chip8) : Exec Chip8 :=
  readMemory s s.pc >>= fun hi =>
  readMemory s (s.pc + 1) >>= fun lo =>
    let s1 := { s with opcode := ((hi <<< 8) ||| lo) % 65536 }
    let s2 := { s1 with pc := (s1.pc + 2) % 65536 }
    (match table ((s2.opcode &&& 0xF000) >>> 12) with
      | some f => f s2
      | none => .error (.table ((s2.opcode &&& 0xF000) >>> 12), s2)) >>= fun s3 =>
    .ok (timerStep s3)

/-- Memory holds the 16-bit opcode `w` at address `a`: both bytes lie inside
`memory`, high byte first. -/
def holdsOpcode (s : Chip8) (a w : Nat) : Prop :=
  a + 1 < 4096 ∧ s.memory a = w / 256 ∧ s.memory (a + 1) = w % 256

instance (s : Chip8) (a w : Nat) : Decidable (holdsOpcode s a w) := by
  unfold holdsOpcode
  infer_instance

/-! ## Specification vocabulary and concrete inputs -/

/-- The input of the add handler with destination register 0xF: opcode 8F04,
VF = 3 and V0 = 4. -/
def addFlagState : Chip8 :=
  { new 0 (fun _ => 0) with
    registers := fun i => if i = 0xF then 3 else if i = 0 then 4 else 0
    opcode := 0x8F04 }

/-- The input of the subtract handler with equal operands: opcode 8015 and
V0 = V1 = 5. -/
def subEqualState : Chip8 :=
  { new 0 (fun _ => 0) with
    registers := fun i => if i = 0 then 5 else if i = 1 then 5 else 0
    opcode := 0x8015 }

/-- A state with V0 = 200, V1 = 100, V2 = 7 and the given opcode. -/
def arithState (op : Nat) : Chip8 :=
  { new 0 (fun _ => 0) with
    registers := fun i => if i = 0 then 200 else if i = 1 then 100 else if i = 2 then 7 else 0
    opcode := op }

/-- A machine fresh from the constructor with the call 2204 at 0x200 and the
return 00EE at 0x204. -/
def callReturnState : Chip8 :=
  { new 0 (fun _ => 0) with
    memory := fun i =>
      if i = 0x200 then 0x22 else if i = 0x201 then 0x04
      else if i = 0x204 then 0x00 else if i = 0x205 then 0xEE
      else (new 0 (fun _ => 0)).memory i }

/-- A machine fresh from the constructor with V3 = 255, index = 0x300 and
opcode F333. -/
def bcdState : Chip8 :=
  { new 0 (fun _ => 0) with
    registers := fun i => if i = 3 then 255 else 0
    index := 0x300
    opcode := 0xF333 }

/-- A machine fresh from the constructor with delayTimer = 1, soundTimer = 5
and the opcode 00E0 (clear screen, which touches no timer) at 0x200. -/
def timerState : Chip8 :=
  { new 0 (fun _ => 0) with
    memory := fun i =>
      if i = 0x200 then 0x00 else if i = 0x201 then 0xE0
      else (new 0 (fun _ => 0)).memory i
    delayTimer := 1
    soundTimer := 5 }

/-- Memory `m` with the cells `lo ≤ a < hi` replaced by the bytes of `buffer`,
cell `START_ADDRESS + i` receiving `buffer[i]` converted to `uint8_t`. -/
def copied (buffer : List Nat) (lo hi : Nat) (m : Nat → Nat) : Nat → Nat :=
  fun a => if lo ≤ a ∧ a < hi then buffer.getD (a - START_ADDRESS) 0 % 256 else m a

/-- An image of 3585 bytes, each 0x11. -/
def longImage : List Nat :=
  List.replicate 3585 0x11

/-- The program 6005 6103 8014 as a byte sequence. -/
def sampleImage : List Nat :=
  [0x60, 0x05, 0x61, 0x03, 0x80, 0x14]

/-- Effect of drawing on the set `T` of framebuffer cells: `s1` is `s` with
exactly the cells of `T` XORed with 0xFFFFFFFF, register 0xF set to 1 when a
cell of `T` held 0xFFFFFFFF in `s` and kept otherwise, and nothing else
changed. -/
structure Drawn (T : Nat → Prop) (s s1 : Chip8) : Prop where
  toggled : ∀ i, T i → s1.video i = s.video i ^^^ 0xFFFFFFFF
  kept : ∀ i, ¬ T i → s1.video i = s.video i
  collide : (∃ i, T i ∧ s.video i = 0xFFFFFFFF) → s1.registers 0xF = 1
  noCollide : (¬ ∃ i, T i ∧ s.video i = 0xFFFFFFFF) → s1.registers 0xF = s.registers 0xF
  registers : ∀ j, j ≠ 0xF → s1.registers j = s.registers j
  memory : s1.memory = s.memory
  index : s1.index = s.index
  opcode : s1.opcode = s.opcode
  pc : s1.pc = s.pc
  stack : s1.stack = s.stack
  sp : s1.sp = s.sp
  delayTimer : s1.delayTimer = s.delayTimer
  soundTimer : s1.soundTimer = s.soundTimer
  keypad : s1.keypad = s.keypad

/-- A machine fresh from the constructor with the pixel at column 0, row 1
lit, index at the glyph of digit 0, and opcode D015 (x = 0, y = 1, n = 5). -/
def drawState : Chip8 :=
  { new 0 (fun _ => 0) with
    video := fun i => if i = 64 then 0xFFFFFFFF else 0
    index := 0x50
    opcode := 0xD015 }

/-- The host loop: `n` successive calls of `Cycle`. -/
def cycles : Nat → Chip8 → Exec Chip8
  | 0, s => .ok s
  | n + 1, s => Cycle s >>= cycles n

/-- A machine fresh from the constructor with opcode 6005. -/
def loadImmState : Chip8 :=
  { new 0 (fun _ => 0) with opcode := 0x6005 }

/-- A machine fresh from the constructor with delayTimer = 7 and opcode
F007. -/
def timerReadState : Chip8 :=
  { new 0 (fun _ => 0) with
    delayTimer := 7
    opcode := 0xF007 }

/-- A machine fresh from the constructor with V0 = 3, soundTimer = 5 and
opcode F018. -/
def soundState : Chip8 :=
  { new 0 (fun _ => 0) with
    registers := fun i => if i = 0 then 3 else 0
    soundTimer := 5
    opcode := 0xF018 }

/-- A machine fresh from the constructor whose random generator returns the
byte 0xFF, with opcode C00F. -/
def randState : Chip8 :=
  { new 0 (fun _ => 0xFF) with opcode := 0xC00F }

/-- The input of the subtract handler with source register 0xF: opcode 80F5,
V0 = 10 and VF = 3. -/
def subFlagState : Chip8 :=
  { new 0 (fun _ => 0) with
    registers := fun i => if i = 0 then 10 else if i = 0xF then 3 else 0
    opcode := 0x80F5 }

/-- A machine fresh from the constructor with the given opcode and the pixel
at column 0, row 1 lit. -/
def litState (op : Nat) : Chip8 :=
  { new 0 (fun _ => 0) with
    video := fun i => if i = 64 then 0xFFFFFFFF else 0
    opcode := op }

/-- The out-of-range access that ended an execution, if one did. -/
def fault (r : Exec Chip8) : Option Access :=
  match r with
  | .ok _ => none
  | .error (a, _) => some a

/-- A machine fresh from the constructor with keys 3 and 7 pressed and the
opcode F20A at 0x200. -/
def keyWaitState : Chip8 :=
  { new 0 (fun _ => 0) with
    memory := fun i =>
      if i = 0x200 then 0xF2 else if i = 0x201 then 0x0A
      else (new 0 (fun _ => 0)).memory i
    keypad := fun i => if i = 3 then 1 else if i = 7 then 1 else 0 }

/-- Memory `m` with the cells `idx + lo ≤ a < idx + hi` replaced by the
registers, cell `idx + i` receiving `regs i`. -/
def stored (regs : Nat → Nat) (idx lo hi : Nat) (m : Nat → Nat) : Nat → Nat :=
  fun a => if idx + lo ≤ a ∧ a < idx + hi then regs (a - idx) else m a

/-- Registers `regs` with the registers `lo ≤ j < hi` replaced by memory,
register `j` receiving `m (idx + j)`. -/
def fetched (m : Nat → Nat) (idx lo hi : Nat) (regs : Nat → Nat) : Nat → Nat :=
  fun j => if lo ≤ j ∧ j < hi then m (idx + j) else regs j

/-- A machine fresh from the constructor with V0 = 11, V1 = 22, V2 = 33,
V3 = 44, index = 0x300 and opcode F255. -/
def blockState : Chip8 :=
  { new 0 (fun _ => 0) with
    registers := fun i =>
      if i = 0 then 11 else if i = 1 then 22 else if i = 2 then 33 else if i = 3 then 44 else 0
    index := 0x300
    opcode := 0xF255 }

/-- The program 00E0 A050 D005 as a byte sequence. -/
def glyphImage : List Nat :=
  [0x00, 0xE0, 0xA0, 0x50, 0xD0, 0x05]

/-- A machine fresh from the constructor with V0 = `v` and opcode F029. -/
def glyphAddressState (v : Nat) : Chip8 :=
  { new 0 (fun _ => 0) with
    registers := fun i => if i = 0 then v else 0
    opcode := 0xF029 }

/-- A handler that, when it completes, keeps the stack pointer at most 16 if
it was at most 16. -/
def SpBounded (f : Chip8Func) : Prop :=
  ∀ s s1, f s = .ok s1 → s.sp ≤ 16 → s1.sp ≤ 16

/-- The state in which an out-of-range access was attempted, if one was. -/
def faultState (r : Exec Chip8) : Option Chip8 :=
  match r with
  | .ok _ => none
  | .error (_, s) => some s

/-- The program 00EE: a return with nothing on the stack. -/
def returnImage : List Nat :=
  [0x00, 0xEE]

/-- The program 2200 at 0x200: a call of its own address. -/
def selfCallImage : List Nat :=
  [0x22, 0x00]

/-- An image of exactly 3584 bytes (4096 - 0x200), each 0x11. -/
def fullImage : List Nat :=
  List.replicate 3584 0x11

/-- The states a host can bring the machine to: the constructor followed by
the load of `image` (at most 3584 bytes, so that the copy stays inside
`memory`), then any number of `Cycle` calls that complete, the host being free
to rewrite the keypad between them. -/
inductive Reachable (image : List Nat) (opcode0 : Nat) (rand : Nat → Nat) : Chip8 → Prop where
  | loaded (s0 : Chip8) : image.length ≤ 3584 →
      LoadROM (some image) (new opcode0 rand) = .ok s0 → Reachable image opcode0 rand s0
  | cycle (s s1 : Chip8) : Reachable image opcode0 rand s → Cycle s = .ok s1 →
      Reachable image opcode0 rand s1
  | keys (s : Chip8) (keypad : Nat → Nat) : Reachable image opcode0 rand s →
      Reachable image opcode0 rand { s with keypad := keypad }

/-! ## Decoding lemmas -/

theorem and_shiftLeft_mask (w k n : Nat) :
    (w &&& ((2 ^ n - 1) <<< k)) >>> k = w / 2 ^ k % 2 ^ n := by
  apply Nat.eq_of_testBit_eq
  intro i
  rw [← Nat.shiftRight_eq_div_pow]
  simp only [Nat.testBit_shiftRight, Nat.testBit_and, Nat.testBit_shiftLeft,
    Nat.testBit_mod_two_pow, Nat.testBit_two_pow_sub_one]
  simp [Bool.and_comm, Nat.add_comm]

theorem nibble_x (w : Nat) : (w &&& 0x0F00) >>> 8 = w / 256 % 16 :=
  and_shiftLeft_mask w 8 4

theorem nibble_y (w : Nat) : (w &&& 0x00F0) >>> 4 = w / 16 % 16 :=
  and_shiftLeft_mask w 4 4

theorem nibble_top (w : Nat) : (w &&& 0xF000) >>> 12 = w / 4096 % 16 :=
  and_shiftLeft_mask w 12 4

theorem mask_nnn (w : Nat) : w &&& 0x0FFF = w % 4096 :=
  Nat.and_pow_two_sub_one_eq_mod w 12

theorem mask_kk (w : Nat) : w &&& 0x00FF = w % 256 :=
  Nat.and_pow_two_sub_one_eq_mod w 8

theorem mask_n (w : Nat) : w &&& 0x000F = w % 16 :=
  Nat.and_pow_two_sub_one_eq_mod w 4

theorem shiftLeft_or_byte (h l : Nat) (hl : l < 256) : (h <<< 8) ||| l = h * 256 + l := by
  rw [Nat.shiftLeft_eq, Nat.mul_comm]
  have := Nat.mul_add_lt_is_or (i := 8) hl h
  omega

/-! ## Validity of the constructed state -/

theorem valid_new (opcode0 : Nat) (rand : Nat → Nat) (h : opcode0 < 65536) :
    Valid (new opcode0 rand) := by
  have hfont : ∀ a, fontset.getD a 0 < 256 := by
    intro a
    by_cases ha : a < 80
    · have : ∀ a, a < 80 → fontset.getD a 0 < 256 := by decide
      exact this a ha
    · rw [List.getD_eq_default _ _ (by simpa [fontset] using ha)]
      decide
  have hmem : ∀ (l : List Nat) (m : Nat → Nat), (∀ i, m i < 256) →
      ∀ i, (l.foldl (fun m i => Function.update m (FONTSET_START_ADDRESS + i)
        (fontset.getD i 0)) m) i < 256 := by
    intro l
    induction l with
    | nil => intro m hm i; exact hm i
    | cons a l ih =>
      intro m hm i
      apply ih
      intro j
      show Function.update m (FONTSET_START_ADDRESS + a) (fontset.getD a 0) j < 256
      rw [Function.update_apply]
      split_ifs
      · exact hfont a
      · exact hm j
  exact
    { registers := fun _ _ => by simp [new]
      memory := fun i _ => hmem _ _ (fun _ => by decide) i
      index := by simp [new]
      pc := by simp [new, START_ADDRESS]
      stack := fun _ _ => by simp [new]
      sp := by simp [new]
      delayTimer := by simp [new]
      soundTimer := by simp [new]
      keypad := fun _ _ => by simp [new]
      video := fun _ _ => by simp [new]
      opcode := h }

/-- Replacing the registers and the opcode by values of their types keeps a
state valid. -/
theorem valid_setRegisters {s : Chip8} (hs : Valid s) (regs : Nat → Nat) (op : Nat)
    (hregs : ∀ i, i < 16 → regs i < 256) (hop : op < 65536) :
    Valid { s with registers := regs, opcode := op } :=
  { hs with registers := hregs, opcode := hop }

theorem valid_arithState (op : Nat) (h : op < 65536) : Valid (arithState op) :=
  valid_setRegisters (valid_new 0 _ (by decide)) _ _
    (fun i _ => by split_ifs <;> omega) h

/-! ## Arithmetic handlers -/

/-- C1 (amended): for all register indices x, y in 0..15 and every valid state,
after `OP_8xy4` on opcode 8xy4 register x equals (Vx + Vy) mod 256, and when
x is not 0xF register 0xF equals 1 if the pre-state sum Vx + Vy exceeds 255 and
0 otherwise. -/
theorem OP_8xy4_sum_and_carry (s : Chip8) (x y : Nat) (hs : Valid s) (hx : x ≤ 15)
    (hy : y ≤ 15) (hop : s.opcode = 0x8004 + x * 0x100 + y * 0x10) :
    (OP_8xy4 s).registers x = (s.registers x + s.registers y) % 256 ∧
    (x ≠ 0xF → (OP_8xy4 s).registers 0xF =
      if s.registers x + s.registers y > 255 then 1 else 0) := by
  have hX : (s.opcode &&& 0x0F00) >>> 8 = x := by rw [nibble_x, hop]; omega
  have hY : (s.opcode &&& 0x00F0) >>> 4 = y := by rw [nibble_y, hop]; omega
  have hvx := hs.registers x (by omega)
  have hvy := hs.registers y (by omega)
  have hsum : (s.registers x + s.registers y) % 65536 = s.registers x + s.registers y :=
    Nat.mod_eq_of_lt (by omega)
  simp only [OP_8xy4, hX, hY, hsum, mask_kk]
  refine ⟨?_, ?_⟩
  · rw [Function.update_same]; omega
  · intro hxF
    rw [Function.update_noteq (Ne.symm hxF)]
    split_ifs <;> simp

/-- Witness for C1: V0 = 200 and V1 = 100 on opcode 8014. -/
theorem OP_8xy4_sum_and_carry_witness :
    (OP_8xy4 (arithState 0x8014)).registers 0 = 44 ∧
    (OP_8xy4 (arithState 0x8014)).registers 0xF = 1 :=
  ⟨(OP_8xy4_sum_and_carry (arithState 0x8014) 0 1 (valid_arithState _ (by decide))
      (by decide) (by decide) (by decide)).1,
    (OP_8xy4_sum_and_carry (arithState 0x8014) 0 1 (valid_arithState _ (by decide))
      (by decide) (by decide) (by decide)).2 (by decide)⟩

/-- C1 (as stated) fails for destination register 0xF: on opcode 8F04 with
VF = 3 and V0 = 4 the sum 7 does not exceed 255, and register 0xF ends as 7,
not 0. -/
theorem OP_8xy4_flag_overwritten :
    Valid addFlagState ∧ addFlagState.opcode = 0x8004 + 0xF * 0x100 + 0 * 0x10 ∧
    addFlagState.registers 0xF + addFlagState.registers 0 = 7 ∧
    (OP_8xy4 addFlagState).registers 0xF = 7 ∧
    ¬ ((OP_8xy4 addFlagState).registers 0xF =
      if addFlagState.registers 0xF + addFlagState.registers 0 > 255 then 1 else 0) := by
  refine ⟨valid_setRegisters (valid_new 0 _ (by decide)) _ _
    (fun i _ => by split_ifs <;> omega) (by decide), by decide, by decide, by decide, by decide⟩

/-- C2 at equal operands: on opcode 8015 with V0 = V1 = 5 the minuend is not
smaller than the subtrahend, and `OP_8xy5` leaves register 0xF at 0. -/
theorem OP_8xy5_equal_operands_flag :
    Valid subEqualState ∧ subEqualState.opcode = 0x8005 + 0 * 0x100 + 1 * 0x10 ∧
    subEqualState.registers 0 ≥ subEqualState.registers 1 ∧
    (OP_8xy5 subEqualState).registers 0xF = 0 := by
  refine ⟨valid_setRegisters (valid_new 0 _ (by decide)) _ _
    (fun i _ => by split_ifs <;> omega) (by decide), by decide, by decide, by decide⟩

/-- C3: for every register x in 0..14 holding v, after `OP_8xy6` on an opcode
8xy6 register 0xF equals v & 1 (the low bit of v), register x equals v >> 1
(half of v, rounded down), and every other register is unchanged. -/
theorem OP_8xy6_shift_right (s : Chip8) (x y v : Nat) (hx : x ≤ 14) (hy : y ≤ 15)
    (hop : s.opcode = 0x8006 + x * 0x100 + y * 0x10) (hv : s.registers x = v) :
    (OP_8xy6 s).registers 0xF = v &&& 1 ∧ (OP_8xy6 s).registers 0xF = v % 2 ∧
    (OP_8xy6 s).registers x = v >>> 1 ∧ (OP_8xy6 s).registers x = v / 2 ∧
    ∀ j, j ≠ x → j ≠ 0xF → (OP_8xy6 s).registers j = s.registers j := by
  have hX : (s.opcode &&& 0x0F00) >>> 8 = x := by rw [nibble_x, hop]; omega
  have hxF : x ≠ 0xF := by omega
  have hFx : (0xF : Nat) ≠ x := Ne.symm hxF
  simp only [OP_8xy6]
  rw [hX]
  refine ⟨?_, ?_, ?_, ?_, ?_⟩
  · rw [Function.update_noteq hFx, Function.update_same, hv]
  · rw [Function.update_noteq hFx, Function.update_same, hv, Nat.and_one_is_mod]
  · rw [Function.update_same, Function.update_noteq hxF, hv]
  · rw [Function.update_same, Function.update_noteq hxF, hv, Nat.shiftRight_eq_div_pow]
  · intro j hjx hjF
    rw [Function.update_noteq hjx, Function.update_noteq hjF]

/-- Witness for C3: V2 = 7 on opcode 8216. -/
theorem OP_8xy6_shift_right_witness :
    (OP_8xy6 (arithState 0x8216)).registers 0xF = 7 &&& 1 ∧
    (OP_8xy6 (arithState 0x8216)).registers 0xF = 7 % 2 ∧
    (OP_8xy6 (arithState 0x8216)).registers 2 = 7 >>> 1 ∧
    (OP_8xy6 (arithState 0x8216)).registers 2 = 7 / 2 ∧
    ∀ j, j ≠ 2 → j ≠ 0xF →
      (OP_8xy6 (arithState 0x8216)).registers j = (arithState 0x8216).registers j :=
  OP_8xy6_shift_right (arithState 0x8216) 2 1 7 (by decide) (by decide) (by decide) (by decide)

/-! ## Cycle: fetch and timers -/

theorem timerStep_frame (s : Chip8) :
    (timerStep s).pc = s.pc ∧ (timerStep s).sp = s.sp ∧ (timerStep s).memory = s.memory ∧
    (timerStep s).stack = s.stack ∧ (timerStep s).registers = s.registers ∧
    (timerStep s).index = s.index ∧ (timerStep s).video = s.video ∧
    (timerStep s).keypad = s.keypad ∧ (timerStep s).opcode = s.opcode ∧
    (timerStep s).soundTimer = s.soundTimer := by
  unfold timerStep
  split_ifs <;> simp

/-- When memory holds the opcode `w` at `pc`, `Cycle` stores `w` in `opcode`,
advances `pc` by 2, calls the entry of `table` for the top nibble of `w` and
ends with the timer statements. -/
theorem Cycle_of_holdsOpcode (s : Chip8) (w : Nat) (h : holdsOpcode s s.pc w)
    (hw : w < 65536) :
    Cycle s =
      (match table ((w &&& 0xF000) >>> 12) with
        | some f => f { s with opcode := w, pc := s.pc + 2 }
        | none => .error (.table ((w &&& 0xF000) >>> 12),
            { s with opcode := w, pc := s.pc + 2 })) >>= fun s3 => .ok (timerStep s3) := by
  obtain ⟨hpc, hhi, hlo⟩ := h
  have hfetch : ((s.memory s.pc <<< 8) ||| s.memory (s.pc + 1)) % 65536 = w := by
    rw [hhi, hlo, shiftLeft_or_byte _ _ (Nat.mod_lt _ (by decide))]
    omega
  have hpc2 : (s.pc + 2) % 65536 = s.pc + 2 := Nat.mod_eq_of_lt (by omega)
  have h1 : readMemory s s.pc = .ok (s.memory s.pc) := by
    unfold readMemory; rw [if_pos (by omega)]
  have h2 : readMemory s (s.pc + 1) = .ok (s.memory (s.pc + 1)) := by
    unfold readMemory; rw [if_pos hpc]
  unfold Cycle
  rw [h1, h2]
  simp only [bind, Except.bind, hfetch, hpc2]

theorem OP_2nnn_ok (s : Chip8) (h : s.sp < 16) :
    OP_2nnn s = .ok { s with
      stack := Function.update s.stack s.sp s.pc
      sp := s.sp + 1
      pc := s.opcode &&& 0x0FFF } := by
  unfold OP_2nnn
  rw [if_pos h]
  simp only [Nat.mod_eq_of_lt (by omega : s.sp + 1 < 256)]

theorem OP_00EE_ok (s : Chip8) (h0 : 0 < s.sp) (h : s.sp ≤ 16) :
    OP_00EE s = .ok { s with sp := s.sp - 1, pc := s.stack (s.sp - 1) } := by
  have hsp : (s.sp + 256 - 1) % 256 = s.sp - 1 := by omega
  unfold OP_00EE
  simp only [hsp]
  rw [if_pos (by omega)]

/-- One `Cycle` on a call opcode 2nnn with sp < 16. -/
theorem Cycle_call (s : Chip8) (nnn : Nat) (hsp : s.sp < 16) (hnnn : nnn ≤ 0xFFF)
    (hcall : holdsOpcode s s.pc (0x2000 + nnn)) :
    ∃ s1, Cycle s = .ok s1 ∧ s1.pc = nnn ∧ s1.sp = s.sp + 1 ∧
      s1.stack s.sp = s.pc + 2 ∧ s1.memory = s.memory := by
  have htop : ((0x2000 + nnn) &&& 0xF000) >>> 12 = 2 := by rw [nibble_top]; omega
  have haddr : (0x2000 + nnn) &&& 0x0FFF = nnn := by rw [mask_nnn]; omega
  have htable2 : table 2 = some OP_2nnn := rfl
  have hc1 := Cycle_of_holdsOpcode s (0x2000 + nnn) hcall (by omega)
  rw [htop, htable2] at hc1
  simp only [] at hc1
  rw [OP_2nnn_ok _ (by exact hsp)] at hc1
  simp only [bind, Except.bind, haddr] at hc1
  obtain ⟨fpc, fsp, fmem, fstack, -⟩ := timerStep_frame
    { s with opcode := 0x2000 + nnn, pc := nnn, stack := Function.update s.stack s.sp (s.pc + 2),
             sp := s.sp + 1 }
  refine ⟨_, hc1, fpc, fsp, ?_, fmem⟩
  rw [fstack]
  exact Function.update_same _ _ _

/-- One `Cycle` on the return opcode 00EE with 0 < sp ≤ 16. -/
theorem Cycle_return (s : Chip8) (h0 : 0 < s.sp) (h16 : s.sp ≤ 16)
    (hret : holdsOpcode s s.pc 0x00EE) :
    ∃ s1, Cycle s = .ok s1 ∧ s1.pc = s.stack (s.sp - 1) ∧ s1.sp = s.sp - 1 := by
  have htable0 : table ((0x00EE &&& 0xF000) >>> 12) = some Table0 := rfl
  have htable0E : table0 (0x00EE &&& 0x000F) = some OP_00EE := rfl
  have hc1 := Cycle_of_holdsOpcode s 0x00EE hret (by decide)
  rw [htable0] at hc1
  simp only [Table0] at hc1
  rw [htable0E] at hc1
  simp only [] at hc1
  rw [OP_00EE_ok _ (by exact h0) (by exact h16)] at hc1
  simp only [bind, Except.bind] at hc1
  obtain ⟨fpc, fsp, -⟩ := timerStep_frame
    { s with opcode := 0x00EE, pc := s.stack (s.sp - 1), sp := s.sp - 1 }
  exact ⟨_, hc1, fpc, fsp⟩

/-- C4: from a state with sp < 16 whose memory holds a call opcode 2nnn at
pc = p and the return opcode 00EE at nnn, two successive `Cycle` calls both
complete, and end with pc = p + 2 and sp equal to its original value. -/
theorem Cycle_call_then_return (s : Chip8) (p nnn : Nat) (hsp : s.sp < 16) (hp : s.pc = p)
    (hnnn : nnn ≤ 0xFFF) (hcall : holdsOpcode s p (0x2000 + nnn))
    (hret : holdsOpcode s nnn 0x00EE) :
    ∃ s1 s2, Cycle s = .ok s1 ∧ Cycle s1 = .ok s2 ∧ s2.pc = p + 2 ∧ s2.sp = s.sp := by
  subst hp
  obtain ⟨s1, hc1, hpc1, hsp1, hstack1, hmem1⟩ := Cycle_call s nnn hsp hnnn hcall
  have hret1 : holdsOpcode s1 s1.pc 0x00EE := by
    unfold holdsOpcode at hret ⊢
    rw [hpc1, hmem1]
    exact hret
  obtain ⟨s2, hc2, hpc2, hsp2⟩ := Cycle_return s1 (by omega) (by omega) hret1
  refine ⟨s1, s2, hc1, hc2, ?_, ?_⟩
  · rw [hpc2, hsp1, Nat.add_sub_cancel, hstack1]
  · rw [hsp2, hsp1, Nat.add_sub_cancel]

/-- Witness for C4: call 2204 at 0x200, return at 0x204. -/
theorem Cycle_call_then_return_witness :
    ∃ s1 s2, Cycle callReturnState = .ok s1 ∧ Cycle s1 = .ok s2 ∧ s2.pc = 0x200 + 2 ∧
      s2.sp = callReturnState.sp :=
  Cycle_call_then_return callReturnState 0x200 0x204 (by decide) (by decide) (by decide)
    (by decide) (by decide)

/-! ## Decimal decomposition -/

theorem writeMemory_ok (i v : Nat) (s : Chip8) (h : i < 4096) :
    writeMemory i v s = .ok { s with memory := Function.update s.memory i v } := by
  unfold writeMemory
  rw [if_pos h]

theorem readMemory_ok (s : Chip8) (i : Nat) (h : i < 4096) :
    readMemory s i = .ok (s.memory i) := by
  unfold readMemory
  rw [if_pos h]

/-- C7: for every register x holding an 8-bit value v and every pointer P with
P + 2 < 4096, `OP_Fx33` completes with memory[P] = v / 100,
memory[P+1] = (v / 10) mod 10 and memory[P+2] = v mod 10; each cell is a digit
0..9, the digits recompose v, every other memory cell is unchanged, and for
v = 255 the cells are 2, 5, 5. -/
theorem OP_Fx33_digits (s : Chip8) (x v P : Nat) (hx : x ≤ 15)
    (hop : s.opcode = 0xF033 + x * 0x100) (hv : s.registers x = v) (hv8 : v < 256)
    (hP : s.index = P) (hP2 : P + 2 < 4096) :
    ∃ s1, OP_Fx33 s = .ok s1 ∧
      s1.memory P = v / 100 ∧ s1.memory (P + 1) = v / 10 % 10 ∧ s1.memory (P + 2) = v % 10 ∧
      s1.memory P ≤ 9 ∧ s1.memory (P + 1) ≤ 9 ∧ s1.memory (P + 2) ≤ 9 ∧
      100 * s1.memory P + 10 * s1.memory (P + 1) + s1.memory (P + 2) = v ∧
      (∀ a, a ≠ P → a ≠ P + 1 → a ≠ P + 2 → s1.memory a = s.memory a) ∧
      (v = 255 → s1.memory P = 2 ∧ s1.memory (P + 1) = 5 ∧ s1.memory (P + 2) = 5) := by
  have hX : (s.opcode &&& 0x0F00) >>> 8 = x := by rw [nibble_x, hop]; omega
  have hrun : OP_Fx33 s = .ok
      { s with
        memory := Function.update (Function.update (Function.update s.memory (P + 2) (v % 10))
          (P + 1) (v / 10 % 10)) P (v / 10 / 10 % 10) } := by
    unfold OP_Fx33
    simp only [hX, hv, hP]
    rw [writeMemory_ok _ _ _ (by omega)]
    simp only [bind, Except.bind, hP]
    rw [writeMemory_ok _ _ _ (by omega)]
    simp only [hP]
    rw [writeMemory_ok _ _ _ (by omega)]
  have hh : v / 10 / 10 % 10 = v / 100 := by omega
  have m0 : Function.update (Function.update (Function.update s.memory (P + 2) (v % 10))
      (P + 1) (v / 10 % 10)) P (v / 10 / 10 % 10) P = v / 100 := by
    rw [Function.update_same, hh]
  have m1 : Function.update (Function.update (Function.update s.memory (P + 2) (v % 10))
      (P + 1) (v / 10 % 10)) P (v / 10 / 10 % 10) (P + 1) = v / 10 % 10 := by
    rw [Function.update_noteq (by omega), Function.update_same]
  have m2 : Function.update (Function.update (Function.update s.memory (P + 2) (v % 10))
      (P + 1) (v / 10 % 10)) P (v / 10 / 10 % 10) (P + 2) = v % 10 := by
    rw [Function.update_noteq (by omega), Function.update_noteq (by omega),
      Function.update_same]
  refine ⟨_, hrun, m0, m1, m2, ?_, ?_, ?_, ?_, ?_, ?_⟩
  · simp only [m0]; omega
  · simp only [m1]; omega
  · simp only [m2]; omega
  · simp only [m0, m1, m2]; omega
  · intro a h0 h1 h2
    dsimp only
    rw [Function.update_noteq h0, Function.update_noteq h1, Function.update_noteq h2]
  · intro h255
    subst h255
    exact ⟨m0, m1, m2⟩

/-- Witness for C7: V3 = 255 at pointer 0x300. -/
theorem OP_Fx33_digits_witness :
    ∃ s1, OP_Fx33 bcdState = .ok s1 ∧
      s1.memory 0x300 = 2 ∧ s1.memory 0x301 = 5 ∧ s1.memory 0x302 = 5 ∧
      ∀ a, a ≠ 0x300 → a ≠ 0x301 → a ≠ 0x302 → s1.memory a = bcdState.memory a := by
  obtain ⟨s1, hrun, _, _, _, _, _, _, _, hframe, h255⟩ :=
    OP_Fx33_digits bcdState 3 255 0x300 (by decide) (by decide) (by decide) (by decide)
      (by decide) (by decide)
  exact ⟨s1, hrun, (h255 rfl).1, (h255 rfl).2.1, (h255 rfl).2.2, hframe⟩

/-! ## Timers -/

/-- C10 at soundTimer = 5: the timer statements of `Cycle` bring delayTimer
from 1 to 0 and leave soundTimer at 5, both on their own and at the end of a
`Cycle` that executes 00E0. -/
theorem timerStep_soundTimer_not_decremented :
    (timerStep timerState).delayTimer = 0 ∧ (timerStep timerState).soundTimer = 5 ∧
    (Cycle timerState).toOption.map Chip8.delayTimer = some 0 ∧
    (Cycle timerState).toOption.map Chip8.soundTimer = some 5 := by
  refine ⟨by decide, by decide, by decide, by decide⟩

/-! ## LoadROM -/

/-- The copy loop of `LoadROM` while it stays inside `memory`. -/
theorem copyLoop_ok (buffer : List Nat) :
    ∀ (k i : Nat) (s : Chip8), START_ADDRESS + i + k ≤ 4096 →
      forLoop (fun i s1 => writeMemory (START_ADDRESS + i) (buffer.getD i 0 % 256) s1) k i s =
        .ok { s with
          memory := copied buffer (START_ADDRESS + i) (START_ADDRESS + i + k) s.memory } := by
  intro k
  induction k with
  | zero =>
    intro i s _
    have : copied buffer (START_ADDRESS + i) (START_ADDRESS + i + 0) s.memory = s.memory := by
      funext a
      unfold copied
      rw [if_neg (by omega)]
    rw [this]
    rfl
  | succ k ih =>
    intro i s h
    unfold forLoop
    rw [writeMemory_ok _ _ _ (by omega)]
    simp only [bind, Except.bind]
    rw [ih (i + 1) _ (by omega)]
    congr 2
    funext a
    unfold copied
    simp only [Function.update_apply]
    by_cases h1 : a = START_ADDRESS + i
    · subst h1
      rw [if_neg (by omega), if_pos rfl, if_pos (by omega), Nat.add_sub_cancel_left]
    · rw [if_neg h1]
      by_cases h2 : START_ADDRESS + (i + 1) ≤ a ∧ a < START_ADDRESS + (i + 1) + k
      · rw [if_pos h2, if_pos (by omega)]
      · rw [if_neg h2, if_neg (by omega)]

/-- The copy loop of `LoadROM` when it runs past the end of `memory`: the
cells up to 4095 are written, then the assignment to `memory[4096]` is
attempted. -/
theorem copyLoop_overrun (buffer : List Nat) :
    ∀ (k i : Nat) (s : Chip8), START_ADDRESS + i ≤ 4096 → 4096 < START_ADDRESS + i + k →
      forLoop (fun i s1 => writeMemory (START_ADDRESS + i) (buffer.getD i 0 % 256) s1) k i s =
        .error (.memory 4096,
          { s with memory := copied buffer (START_ADDRESS + i) 4096 s.memory }) := by
  intro k
  induction k with
  | zero => intro i s h1 h2; omega
  | succ k ih =>
    intro i s h1 h2
    unfold forLoop
    by_cases hi : START_ADDRESS + i = 4096
    · have hw : writeMemory (START_ADDRESS + i) (buffer.getD i 0 % 256) s =
          .error (.memory 4096, s) := by
        unfold writeMemory
        rw [if_neg (by omega), hi]
      have : copied buffer (START_ADDRESS + i) 4096 s.memory = s.memory := by
        funext a
        unfold copied
        rw [if_neg (by omega)]
      rw [hw, this]
      rfl
    · rw [writeMemory_ok _ _ _ (by omega)]
      simp only [bind, Except.bind]
      rw [ih (i + 1) _ (by omega) (by omega)]
      congr 3
      funext a
      unfold copied
      simp only [Function.update_apply]
      by_cases h3 : a = START_ADDRESS + i
      · subst h3
        rw [if_neg (by omega), if_pos rfl, if_pos (by omega), Nat.add_sub_cancel_left]
      · rw [if_neg h3]
        by_cases h4 : START_ADDRESS + (i + 1) ≤ a ∧ a < 4096
        · rw [if_pos h4, if_pos (by omega)]
        · rw [if_neg h4, if_neg (by omega)]

theorem LoadROM_ok (buffer : List Nat) (s : Chip8) (h : buffer.length ≤ 3584) :
    LoadROM (some buffer) s =
      .ok { s with
        memory := copied buffer START_ADDRESS (START_ADDRESS + buffer.length) s.memory } := by
  have := copyLoop_ok buffer buffer.length 0 s (by unfold START_ADDRESS; omega)
  simpa [LoadROM] using this

theorem LoadROM_overrun (buffer : List Nat) (s : Chip8) (h : 3584 < buffer.length) :
    LoadROM (some buffer) s =
      .error (.memory 4096, { s with memory := copied buffer START_ADDRESS 4096 s.memory }) := by
  have := copyLoop_overrun buffer buffer.length 0 s (by unfold START_ADDRESS; omega)
    (by unfold START_ADDRESS; omega)
  simpa [LoadROM] using this

/-- C8 (as stated) fails on an image of 3585 bytes loaded into a fresh
machine: `LoadROM` does not leave the state as it was; it reaches the
assignment to `memory[4096]`, outside the array, with `memory[0x200]` already
overwritten by the first byte of the image. -/
theorem LoadROM_long_image_overwrites :
    longImage.length = 3585 ∧ (new 0 (fun _ => 0)).memory 0x200 = 0 ∧
    ∃ s1, LoadROM (some longImage) (new 0 (fun _ => 0)) = .error (.memory 4096, s1) ∧
      s1.memory 0x200 = 0x11 := by
  have hlen : longImage.length = 3585 := List.length_replicate _ _
  refine ⟨hlen, by decide, _, LoadROM_overrun longImage _ (by omega), ?_⟩
  show copied longImage START_ADDRESS 4096 (new 0 (fun _ => 0)).memory 0x200 = 0x11
  unfold copied
  rw [if_pos (by decide)]
  rfl

/-- C8 (amended): `LoadROM` checks no length and has no failure result: for
every image of at most 3584 bytes (4096 - 0x200) the load succeeds, with no
access outside `memory` and every byte of the image stored from 0x200 on, and
a file that could not be opened is passed over without any report, the state
left as it was.  Nothing is stated for an image of more than 3584 bytes. -/
theorem LoadROM_succeeds_up_to_3584 (b : List Nat) (s : Chip8) (hn : b.length ≤ 3584) :
    (∃ s1, LoadROM (some b) s = .ok s1 ∧ fault (LoadROM (some b) s) = none ∧
      ∀ i, i < b.length → s1.memory (0x200 + i) = b.getD i 0 % 256) ∧
    LoadROM none s = .ok s := by
  have hrun := LoadROM_ok b s hn
  refine ⟨⟨_, hrun, by rw [hrun]; rfl, ?_⟩, rfl⟩
  intro i hi
  show copied b START_ADDRESS (START_ADDRESS + b.length) s.memory (0x200 + i) = _
  unfold copied START_ADDRESS
  rw [if_pos (by omega), Nat.add_sub_cancel_left]

/-- Witness for C8: an image of exactly 3584 bytes on a fresh machine; the
last byte lands in memory[0xFFF]. -/
theorem LoadROM_succeeds_up_to_3584_witness :
    fullImage.length = 3584 ∧
    ∃ s1, LoadROM (some fullImage) (new 0 (fun _ => 0)) = .ok s1 ∧
      fault (LoadROM (some fullImage) (new 0 (fun _ => 0))) = none ∧
      s1.memory 0xFFF = 0x11 := by
  have hlen : fullImage.length = 3584 := List.length_replicate _ _
  obtain ⟨⟨s1, hrun, hfault, hmem⟩, -⟩ :=
    LoadROM_succeeds_up_to_3584 fullImage (new 0 (fun _ => 0)) (Nat.le_of_eq hlen)
  refine ⟨hlen, s1, hrun, hfault, ?_⟩
  have h := hmem 3583 (by rw [hlen]; decide)
  rw [List.getD_eq_getElem _ _ (by rw [hlen]; decide)] at h
  rw [show (0xFFF : Nat) = 0x200 + 3583 from rfl, h]
  unfold fullImage
  rw [List.getElem_replicate]

/-- C9: for every byte sequence b of length n ≤ 3584, `LoadROM` completes,
memory[0x200 + i] = b[i] for every i < n, every memory cell outside
0x200..0x200+n-1 (the font table at 0x050..0x09F included) is unchanged, and
registers, index, pc, stack, sp, timers, keypad and framebuffer are
unchanged. -/
theorem LoadROM_copies_image (b : List Nat) (s : Chip8) (hn : b.length ≤ 3584)
    (hb : ∀ v ∈ b, v < 256) :
    ∃ s1, LoadROM (some b) s = .ok s1 ∧
      (∀ i (h : i < b.length), s1.memory (0x200 + i) = b[i]) ∧
      (∀ a, a < 0x200 ∨ 0x200 + b.length ≤ a → s1.memory a = s.memory a) ∧
      (∀ a, 0x050 ≤ a → a ≤ 0x09F → s1.memory a = s.memory a) ∧
      s1.registers = s.registers ∧ s1.index = s.index ∧ s1.pc = s.pc ∧
      s1.stack = s.stack ∧ s1.sp = s.sp ∧ s1.delayTimer = s.delayTimer ∧
      s1.soundTimer = s.soundTimer ∧ s1.keypad = s.keypad ∧ s1.video = s.video := by
  have hout : ∀ a, a < 0x200 ∨ 0x200 + b.length ≤ a →
      copied b START_ADDRESS (START_ADDRESS + b.length) s.memory a = s.memory a := by
    intro a ha
    unfold copied START_ADDRESS
    rw [if_neg (by omega)]
  refine ⟨_, LoadROM_ok b s hn, ?_, hout, fun a h1 h2 => hout a (Or.inl (by omega)),
    rfl, rfl, rfl, rfl, rfl, rfl, rfl, rfl, rfl⟩
  intro i hi
  show copied b START_ADDRESS (START_ADDRESS + b.length) s.memory (0x200 + i) = _
  unfold copied START_ADDRESS
  rw [if_pos (by omega), Nat.add_sub_cancel_left, List.getD_eq_getElem _ _ hi]
  exact Nat.mod_eq_of_lt (hb _ (List.getElem_mem hi))

/-- Witness for C9: the six bytes of `sampleImage` loaded into a fresh
machine. -/
theorem LoadROM_copies_image_witness :
    ∃ s1, LoadROM (some sampleImage) (new 0 (fun _ => 0)) = .ok s1 ∧
      (∀ i (h : i < sampleImage.length), s1.memory (0x200 + i) = sampleImage[i]) ∧
      (∀ a, a < 0x200 ∨ 0x200 + sampleImage.length ≤ a →
        s1.memory a = (new 0 (fun _ => 0)).memory a) ∧
      (∀ a, 0x050 ≤ a → a ≤ 0x09F → s1.memory a = (new 0 (fun _ => 0)).memory a) ∧
      s1.registers = (new 0 (fun _ => 0)).registers ∧ s1.index = (new 0 (fun _ => 0)).index ∧
      s1.pc = (new 0 (fun _ => 0)).pc ∧ s1.stack = (new 0 (fun _ => 0)).stack ∧
      s1.sp = (new 0 (fun _ => 0)).sp ∧ s1.delayTimer = (new 0 (fun _ => 0)).delayTimer ∧
      s1.soundTimer = (new 0 (fun _ => 0)).soundTimer ∧
      s1.keypad = (new 0 (fun _ => 0)).keypad ∧ s1.video = (new 0 (fun _ => 0)).video :=
  LoadROM_copies_image sampleImage (new 0 (fun _ => 0)) (by decide) (by decide)

/-! ## Sprite drawing -/

theorem Drawn.empty (s : Chip8) : Drawn (fun _ => False) s s :=
  { toggled := fun _ h => h.elim
    kept := fun _ _ => rfl
    collide := fun ⟨_, h, _⟩ => h.elim
    noCollide := fun _ => rfl
    registers := fun _ _ => rfl
    memory := rfl, index := rfl, opcode := rfl, pc := rfl, stack := rfl, sp := rfl
    delayTimer := rfl, soundTimer := rfl, keypad := rfl }

theorem Drawn.congr {T T1 : Nat → Prop} {s s1 : Chip8} (h : ∀ i, T i ↔ T1 i)
    (d : Drawn T s s1) : Drawn T1 s s1 := by
  have : T = T1 := funext fun i => propext (h i)
  rw [← this]
  exact d

theorem Drawn.trans {T1 T2 : Nat → Prop} {s s1 s2 : Chip8} (d1 : Drawn T1 s s1)
    (d2 : Drawn T2 s1 s2) (hdisj : ∀ i, T1 i → T2 i → False) :
    Drawn (fun i => T1 i ∨ T2 i) s s2 := by
  have hv2 : ∀ i, T2 i → s1.video i = s.video i := fun i h2 =>
    d1.kept i (fun h1 => hdisj i h1 h2)
  refine
    { toggled := ?_, kept := ?_, collide := ?_, noCollide := ?_, registers := ?_
      memory := d2.memory.trans d1.memory
      index := d2.index.trans d1.index
      opcode := d2.opcode.trans d1.opcode
      pc := d2.pc.trans d1.pc
      stack := d2.stack.trans d1.stack
      sp := d2.sp.trans d1.sp
      delayTimer := d2.delayTimer.trans d1.delayTimer
      soundTimer := d2.soundTimer.trans d1.soundTimer
      keypad := d2.keypad.trans d1.keypad }
  · rintro i (h1 | h2)
    · rw [d2.kept i (fun h2 => hdisj i h1 h2), d1.toggled i h1]
    · rw [d2.toggled i h2, hv2 i h2]
  · intro i h
    rw [d2.kept i (fun h2 => h (Or.inr h2)), d1.kept i (fun h1 => h (Or.inl h1))]
  · rintro ⟨i, h12, hlit⟩
    by_cases hc2 : ∃ j, T2 j ∧ s1.video j = 0xFFFFFFFF
    · exact d2.collide hc2
    · rw [d2.noCollide hc2]
      rcases h12 with h1 | h2
      · exact d1.collide ⟨i, h1, hlit⟩
      · exact (hc2 ⟨i, h2, (hv2 i h2).trans hlit⟩).elim
  · intro hno
    have hc1 : ¬ ∃ i, T1 i ∧ s.video i = 0xFFFFFFFF := fun ⟨i, h1, hlit⟩ =>
      hno ⟨i, Or.inl h1, hlit⟩
    have hc2 : ¬ ∃ j, T2 j ∧ s1.video j = 0xFFFFFFFF := fun ⟨j, h2, hlit⟩ =>
      hno ⟨j, Or.inr h2, (hv2 j h2).symm.trans hlit⟩
    rw [d2.noCollide hc2, d1.noCollide hc1]
  · intro j hj
    rw [d2.registers j hj, d1.registers j hj]

/-- One iteration of the inner loop of `OP_Dxyn` whose cell lies inside
`video`. -/
theorem drawPixel_drawn (b x y r c : Nat) (s : Chip8) (h : (y + r) * 64 + (x + c) < 2048) :
    ∃ s1, drawPixel b x y r c s = .ok s1 ∧
      Drawn (fun i => b &&& (0x80 >>> c) ≠ 0 ∧ i = (y + r) * 64 + (x + c)) s s1 := by
  unfold drawPixel VIDEO_WIDTH
  by_cases hb : b &&& (0x80 >>> c) ≠ 0
  · simp only [hb, ne_eq, not_false_eq_true, if_true, true_and]
    rw [if_pos (by omega)]
    by_cases hv : s.video ((y + r) * 64 + (x + c)) = 0xFFFFFFFF
    · simp only [hv, if_true]
      refine ⟨_, rfl, ?_⟩
      refine
        { toggled := ?_, kept := ?_, collide := ?_, noCollide := ?_, registers := ?_
          memory := rfl, index := rfl, opcode := rfl, pc := rfl, stack := rfl, sp := rfl
          delayTimer := rfl, soundTimer := rfl, keypad := rfl }
      · intro i hi
        subst hi
        simp [hv]
      · intro i hi
        simp [Function.update_noteq hi]
      · intro _
        simp
      · intro hno
        exact (hno ⟨_, rfl, hv⟩).elim
      · intro j hj
        simp [Function.update_noteq hj]
    · simp only [hv, if_false]
      refine ⟨_, rfl, ?_⟩
      refine
        { toggled := ?_, kept := ?_, collide := ?_, noCollide := ?_, registers := ?_
          memory := rfl, index := rfl, opcode := rfl, pc := rfl, stack := rfl, sp := rfl
          delayTimer := rfl, soundTimer := rfl, keypad := rfl }
      · intro i hi
        subst hi
        simp
      · intro i hi
        simp [Function.update_noteq hi]
      · rintro ⟨i, hi, hlit⟩
        subst hi
        exact (hv hlit).elim
      · intro _
        rfl
      · intro j _
        rfl
  · rw [if_neg hb]
    exact ⟨s, rfl, (Drawn.empty s).congr (fun i => by simp [hb])⟩

/-- The inner loop of `OP_Dxyn` from column `c` on, for a row inside `video`. -/
theorem drawCols_drawn (b x y r : Nat) (hrow : (y + r) * 64 + (x + 8) ≤ 2048) :
    ∀ (k c : Nat) (s : Chip8), c + k ≤ 8 →
      ∃ s1, forLoop (drawPixel b x y r) k c s = .ok s1 ∧
        Drawn (fun i => ∃ c1, c ≤ c1 ∧ c1 < c + k ∧ b &&& (0x80 >>> c1) ≠ 0 ∧
          i = (y + r) * 64 + (x + c1)) s s1 := by
  intro k
  induction k with
  | zero =>
    intro c s _
    exact ⟨s, rfl, (Drawn.empty s).congr (fun i =>
      ⟨fun h => h.elim, fun ⟨c1, h1, h2, _⟩ => by omega⟩)⟩
  | succ k ih =>
    intro c s hk
    obtain ⟨s1, h1, d1⟩ := drawPixel_drawn b x y r c s (by omega)
    obtain ⟨s2, h2, d2⟩ := ih (c + 1) s1 (by omega)
    refine ⟨s2, ?_, ?_⟩
    · unfold forLoop
      rw [h1]
      exact h2
    · refine (d1.trans d2 ?_).congr ?_
      · rintro i ⟨_, hi⟩ ⟨c1, hc1, _, _, hi1⟩
        omega
      · intro i
        constructor
        · rintro (⟨hb, hi⟩ | ⟨c1, hc1, hc2, hb, hi⟩)
          · exact ⟨c, Nat.le_refl c, by omega, hb, hi⟩
          · exact ⟨c1, by omega, by omega, hb, hi⟩
        · rintro ⟨c1, hc1, hc2, hb, hi⟩
          by_cases hcc : c1 = c
          · subst hcc
            exact Or.inl ⟨hb, hi⟩
          · exact Or.inr ⟨c1, by omega, by omega, hb, hi⟩

/-- The outer loop of `OP_Dxyn` from row `r` on, for a sprite inside `video`
and `memory`. -/
theorem drawRows_drawn (x y : Nat) (hx : x + 8 ≤ 64) :
    ∀ (k r : Nat) (s : Chip8), s.index + r + k ≤ 4096 → y + r + k ≤ 32 →
      ∃ s1, forLoop (drawRow x y) k r s = .ok s1 ∧
        Drawn (fun i => ∃ r1 c1, r ≤ r1 ∧ r1 < r + k ∧ c1 < 8 ∧
          s.memory (s.index + r1) &&& (0x80 >>> c1) ≠ 0 ∧
          i = (y + r1) * 64 + (x + c1)) s s1 := by
  intro k
  induction k with
  | zero =>
    intro r s _ _
    exact ⟨s, rfl, (Drawn.empty s).congr (fun i =>
      ⟨fun h => h.elim, fun ⟨r1, c1, h1, h2, _⟩ => by omega⟩)⟩
  | succ k ih =>
    intro r s hm hy
    obtain ⟨s1, h1, d1⟩ :=
      drawCols_drawn (s.memory (s.index + r)) x y r (by omega) 8 0 s (Nat.le_refl 8)
    obtain ⟨s2, h2, d2⟩ := ih (r + 1) s1 (by rw [d1.index]; omega) (by omega)
    rw [d1.memory, d1.index] at d2
    refine ⟨s2, ?_, ?_⟩
    · unfold forLoop drawRow
      rw [readMemory_ok _ _ (by omega)]
      simp only [bind, Except.bind]
      rw [h1]
      exact h2
    · refine (d1.trans d2 ?_).congr ?_
      · rintro i ⟨c1, _, hc1, _, hi1⟩ ⟨r2, c2, hr2, _, hc2, _, hi2⟩
        omega
      · intro i
        constructor
        · rintro (⟨c1, _, hc1, hb, hi⟩ | ⟨r1, c1, hr1, hr2, hc1, hb, hi⟩)
          · exact ⟨r, c1, Nat.le_refl r, by omega, by omega, hb, hi⟩
          · exact ⟨r1, c1, by omega, by omega, hc1, hb, hi⟩
        · rintro ⟨r1, c1, hr1, hr2, hc1, hb, hi⟩
          by_cases hrr : r1 = r
          · subst hrr
            exact Or.inl ⟨c1, Nat.zero_le c1, by omega, hb, hi⟩
          · exact Or.inr ⟨r1, c1, by omega, by omega, hc1, hb, hi⟩

/-- `OP_Dxyn` on a sprite that lies inside the framebuffer and memory: it
completes, and relative to the pre-state with register 0xF cleared it toggles
exactly the cells under the set bits of the sprite. -/
theorem OP_Dxyn_drawn (s : Chip8) (x y n : Nat)
    (hX : (s.opcode &&& 0x0F00) >>> 8 = x) (hY : (s.opcode &&& 0x00F0) >>> 4 = y)
    (hN : s.opcode &&& 0x000F = n)
    (hx : s.registers x % 64 + 8 ≤ 64) (hy : s.registers y % 32 + n ≤ 32)
    (hi : s.index + n ≤ 4096) :
    ∃ s1, OP_Dxyn s = .ok s1 ∧
      Drawn (fun i => ∃ r c, r < n ∧ c < 8 ∧ s.memory (s.index + r) &&& (0x80 >>> c) ≠ 0 ∧
          i = (s.registers y % 32 + r) * 64 + (s.registers x % 64 + c))
        { s with registers := Function.update s.registers 0xF 0 } s1 := by
  have hxp : s.registers x % 64 % 256 = s.registers x % 64 := by omega
  have hyp : s.registers y % 32 % 256 = s.registers y % 32 := by omega
  obtain ⟨s1, h1, d1⟩ := drawRows_drawn (s.registers x % 64) (s.registers y % 32) hx n 0
    { s with registers := Function.update s.registers 0xF 0 } (by simpa using hi) (by omega)
  refine ⟨s1, ?_, d1.congr ?_⟩
  · unfold OP_Dxyn VIDEO_WIDTH VIDEO_HEIGHT
    simp only []
    rw [hX, hY, hN, hxp, hyp]
    exact h1
  · intro i
    constructor
    · rintro ⟨r, c, _, hr, hc, hb, hi⟩
      exact ⟨r, c, by omega, hc, hb, hi⟩
    · rintro ⟨r, c, hr, hc, hb, hi⟩
      exact ⟨r, c, Nat.zero_le r, by omega, hc, hb, hi⟩

theorem xor_xor_cancel (a b : Nat) : (a ^^^ b) ^^^ b = a := by
  rw [Nat.xor_assoc, Nat.xor_self, Nat.xor_zero]

/-- The sprite-pixel test `spriteByte & (0x80 >> col)` of `OP_Dxyn` is nonzero
exactly when bit `7 - col` of the sprite byte is set. -/
theorem spritePixel_ne_zero_iff (b c : Nat) (hc : c < 8) :
    b &&& (0x80 >>> c) ≠ 0 ↔ b.testBit (7 - c) = true := by
  have hpow : 0x80 >>> c = 2 ^ (7 - c) := by
    interval_cases c <;> rfl
  rw [hpow, Nat.and_two_pow]
  have h2 : 2 ^ (7 - c) ≠ 0 := Nat.pos_iff_ne_zero.mp (Nat.two_pow_pos _)
  cases b.testBit (7 - c) <;> simp [h2]

/-- C5: for every state, every height n in 0..15 and all register indices
x, y in 0..14 such that the sprite lies inside the framebuffer and memory,
executing `OP_Dxyn` twice in a row with the same opcode completes both times
and leaves every cell of the framebuffer equal to its value before the first
draw. -/
theorem OP_Dxyn_twice_restores (s : Chip8) (x y n : Nat) (hx : x ≤ 14) (hy : y ≤ 14)
    (hn : n ≤ 15) (hop : s.opcode = 0xD000 + x * 0x100 + y * 0x10 + n)
    (hxin : s.registers x % 64 + 8 ≤ 64) (hyin : s.registers y % 32 + n ≤ 32)
    (hmem : s.index + n ≤ 4096) :
    ∃ s1 s2, OP_Dxyn s = .ok s1 ∧ OP_Dxyn s1 = .ok s2 ∧ s2.video = s.video ∧
      ∀ col row, col < 64 → row < 32 →
        s2.video (row * 64 + col) = s.video (row * 64 + col) := by
  have hX : (s.opcode &&& 0x0F00) >>> 8 = x := by rw [nibble_x, hop]; omega
  have hY : (s.opcode &&& 0x00F0) >>> 4 = y := by rw [nibble_y, hop]; omega
  have hN : s.opcode &&& 0x000F = n := by rw [mask_n, hop]; omega
  obtain ⟨s1, h1, d1⟩ := OP_Dxyn_drawn s x y n hX hY hN hxin hyin hmem
  have ho : s1.opcode = s.opcode := d1.opcode
  have hrx : s1.registers x = s.registers x := by
    rw [d1.registers x (by omega)]
    exact Function.update_noteq (by omega) _ _
  have hry : s1.registers y = s.registers y := by
    rw [d1.registers y (by omega)]
    exact Function.update_noteq (by omega) _ _
  have hm : s1.memory = s.memory := d1.memory
  have hi : s1.index = s.index := d1.index
  obtain ⟨s2, h2, d2⟩ := OP_Dxyn_drawn s1 x y n (by rw [ho]; exact hX) (by rw [ho]; exact hY)
    (by rw [ho]; exact hN) (by rw [hrx]; exact hxin) (by rw [hry]; exact hyin)
    (by rw [hi]; exact hmem)
  rw [hrx, hry, hm, hi] at d2
  have hvideo : s2.video = s.video := by
    funext i
    by_cases hT : ∃ r c, r < n ∧ c < 8 ∧ s.memory (s.index + r) &&& (0x80 >>> c) ≠ 0 ∧
        i = (s.registers y % 32 + r) * 64 + (s.registers x % 64 + c)
    · rw [d2.toggled i hT]
      show s1.video i ^^^ 0xFFFFFFFF = s.video i
      rw [d1.toggled i hT]
      exact xor_xor_cancel _ _
    · rw [d2.kept i hT]
      exact d1.kept i hT
  exact ⟨s1, s2, h1, h2, hvideo, fun col row _ _ => by rw [hvideo]⟩

/-- Witness for C5: the glyph of digit 0 drawn twice at column 0, row 0 over a
framebuffer with one lit pixel. -/
theorem OP_Dxyn_twice_restores_witness :
    ∃ s1 s2, OP_Dxyn drawState = .ok s1 ∧ OP_Dxyn s1 = .ok s2 ∧ s2.video = drawState.video ∧
      ∀ col row, col < 64 → row < 32 →
        s2.video (row * 64 + col) = drawState.video (row * 64 + col) :=
  OP_Dxyn_twice_restores drawState 0 1 5 (by decide) (by decide) (by decide) (by decide)
    (by decide) (by decide) (by decide)

/-- C6: for every state whose framebuffer pixels are each 0 or 0xFFFFFFFF and
in which the sprite lies inside the framebuffer and memory, `OP_Dxyn`
completes, and afterwards register 0xF equals 1 if and only if there is a row
r < n and column c < 8 such that bit (7 - c) of memory[index + r] is set and
the pre-state pixel at (Vx mod 64 + c, Vy mod 32 + r) was lit (held
0xFFFFFFFF, equivalently was not 0); otherwise register 0xF equals 0. -/
theorem OP_Dxyn_collision_flag (s : Chip8) (x y n : Nat) (hx : x ≤ 15) (hy : y ≤ 15)
    (hn : n ≤ 15) (hop : s.opcode = 0xD000 + x * 0x100 + y * 0x10 + n)
    (hfb : ∀ i, i < 64 * 32 → s.video i = 0 ∨ s.video i = 0xFFFFFFFF)
    (hxin : s.registers x % 64 + 8 ≤ 64) (hyin : s.registers y % 32 + n ≤ 32)
    (hmem : s.index + n ≤ 4096) :
    ∃ s1, OP_Dxyn s = .ok s1 ∧
      (s1.registers 0xF = 1 ↔
        ∃ r c, r < n ∧ c < 8 ∧ (s.memory (s.index + r)).testBit (7 - c) = true ∧
          s.video ((s.registers y % 32 + r) * 64 + (s.registers x % 64 + c)) = 0xFFFFFFFF) ∧
      (s1.registers 0xF = 1 ↔
        ∃ r c, r < n ∧ c < 8 ∧ (s.memory (s.index + r)).testBit (7 - c) = true ∧
          s.video ((s.registers y % 32 + r) * 64 + (s.registers x % 64 + c)) ≠ 0) ∧
      ((¬ ∃ r c, r < n ∧ c < 8 ∧ (s.memory (s.index + r)).testBit (7 - c) = true ∧
          s.video ((s.registers y % 32 + r) * 64 + (s.registers x % 64 + c)) = 0xFFFFFFFF) →
        s1.registers 0xF = 0) := by
  have hX : (s.opcode &&& 0x0F00) >>> 8 = x := by rw [nibble_x, hop]; omega
  have hY : (s.opcode &&& 0x00F0) >>> 4 = y := by rw [nibble_y, hop]; omega
  have hN : s.opcode &&& 0x000F = n := by rw [mask_n, hop]; omega
  obtain ⟨s1, h1, d1⟩ := OP_Dxyn_drawn s x y n hX hY hN hxin hyin hmem
  have hcol : (∃ i, (∃ r c, r < n ∧ c < 8 ∧ s.memory (s.index + r) &&& (0x80 >>> c) ≠ 0 ∧
        i = (s.registers y % 32 + r) * 64 + (s.registers x % 64 + c)) ∧
        s.video i = 0xFFFFFFFF) ↔
      ∃ r c, r < n ∧ c < 8 ∧ (s.memory (s.index + r)).testBit (7 - c) = true ∧
        s.video ((s.registers y % 32 + r) * 64 + (s.registers x % 64 + c)) = 0xFFFFFFFF := by
    constructor
    · rintro ⟨i, ⟨r, c, hr, hc, hb, hi⟩, hlit⟩
      subst hi
      exact ⟨r, c, hr, hc, (spritePixel_ne_zero_iff _ c hc).mp hb, hlit⟩
    · rintro ⟨r, c, hr, hc, hb, hlit⟩
      exact ⟨_, ⟨r, c, hr, hc, (spritePixel_ne_zero_iff _ c hc).mpr hb, rfl⟩, hlit⟩
  have hflag : s1.registers 0xF = 1 ↔
      ∃ r c, r < n ∧ c < 8 ∧ (s.memory (s.index + r)).testBit (7 - c) = true ∧
        s.video ((s.registers y % 32 + r) * 64 + (s.registers x % 64 + c)) = 0xFFFFFFFF := by
    rw [← hcol]
    constructor
    · intro hF
      by_contra hno
      have h0 := d1.noCollide hno
      rw [hF] at h0
      simp at h0
    · exact d1.collide
  refine ⟨s1, h1, hflag, ?_, ?_⟩
  · rw [hflag]
    constructor
    · rintro ⟨r, c, hr, hc, hb, hlit⟩
      exact ⟨r, c, hr, hc, hb, by rw [hlit]; decide⟩
    · rintro ⟨r, c, hr, hc, hb, hlit⟩
      refine ⟨r, c, hr, hc, hb, ?_⟩
      rcases hfb ((s.registers y % 32 + r) * 64 + (s.registers x % 64 + c)) (by omega) with h | h
      · exact (hlit h).elim
      · exact h
  · intro hno
    have h0 := d1.noCollide (fun h => hno (hcol.mp h))
    rw [h0]
    simp

/-- Witness for C6: the glyph of digit 0 drawn at column 0, row 0 over a
framebuffer whose only lit pixel is at column 0, row 1, under the set bit 7 of
the second glyph byte 0x90. -/
theorem OP_Dxyn_collision_flag_witness :
    ∃ s1, OP_Dxyn drawState = .ok s1 ∧ s1.registers 0xF = 1 := by
  obtain ⟨s1, hrun, hflag, -, -⟩ :=
    OP_Dxyn_collision_flag drawState 0 1 5 (by decide) (by decide) (by decide) (by decide)
      (fun i _ => by
        show (if i = 64 then 0xFFFFFFFF else 0) = 0 ∨
          (if i = 64 then 0xFFFFFFFF else 0) = 0xFFFFFFFF
        split_ifs
        · exact Or.inr rfl
        · exact Or.inl rfl)
      (by decide) (by decide) (by decide)
  exact ⟨s1, hrun, hflag.mpr ⟨1, 0, by decide, by decide, by decide, by decide⟩⟩

/-! ## Handlers whose statement has no effect -/

/-- C11 on opcode 6005: `OP_6xkk` leaves V0 at 0, and on a fresh machine
loaded with 6005 6103 8014 two `Cycle`s end with V0 = 0 and V1 = 0, the third
with V0 = 0 and VF = 0. -/
theorem OP_6xkk_register_not_loaded :
    loadImmState.opcode = 0x6005 ∧ loadImmState.registers 0 = 0 ∧
    (OP_6xkk loadImmState).registers 0 = 0 ∧
    (LoadROM (some sampleImage) (new 0 (fun _ => 0)) >>= cycles 2).toOption.map
      (fun s => (s.registers 0, s.registers 1)) = some (0, 0) ∧
    (LoadROM (some sampleImage) (new 0 (fun _ => 0)) >>= cycles 3).toOption.map
      (fun s => (s.registers 0, s.registers 0xF)) = some (0, 0) := by
  refine ⟨by decide, by decide, by decide, by decide, by decide⟩

/-- C14 on opcode F007 with delayTimer = 7 and V0 = 0: `OP_Fx07` leaves V0 at
0 (and delayTimer at 7), also when reached through `TableF`. -/
theorem OP_Fx07_register_not_loaded :
    timerReadState.opcode = 0xF007 ∧ timerReadState.delayTimer = 7 ∧
    (OP_Fx07 timerReadState).registers 0 = 0 ∧ (OP_Fx07 timerReadState).delayTimer = 7 ∧
    (TableF timerReadState).toOption.map (fun s => s.registers 0) = some 0 := by
  refine ⟨by decide, by decide, by decide, by decide, by decide⟩

/-- C15 on opcode F018 with V0 = 3 and soundTimer = 5: `OP_Fx18` ends with
soundTimer = 8, the sum, not 3. -/
theorem OP_Fx18_adds_to_soundTimer :
    soundState.opcode = 0xF018 ∧ soundState.registers 0 = 3 ∧ soundState.soundTimer = 5 ∧
    (OP_Fx18 soundState).soundTimer = 8 := by
  refine ⟨by decide, by decide, by decide, by decide⟩

/-- C16 on opcode C00F (kk = 0x0F) with random byte 0xFF: `OP_Cxkk` ends with
V0 = 0, while 0xFF AND 0x0F is 0x0F. -/
theorem OP_Cxkk_masks_high_nibble_only :
    randState.opcode = 0xC00F ∧ randState.randGen 0 % 256 = 0xFF ∧
    randState.opcode &&& 0x00FF = 0x0F ∧
    (OP_Cxkk randState).registers 0 = 0 ∧ 0xFF &&& 0x0F = 0x0F := by
  refine ⟨by decide, by decide, by decide, by decide, by decide⟩

/-- C19 on opcode 80F5 with V0 = 10 and VF = 3: `OP_8xy5` first sets VF to 1
and then subtracts that, so V0 ends as 9, while (10 - 3) mod 256 is 7. -/
theorem OP_8xy5_subtracts_new_flag :
    Valid subFlagState ∧ subFlagState.opcode = 0x8005 + 0 * 0x100 + 0xF * 0x10 ∧
    subFlagState.registers 0 = 10 ∧ subFlagState.registers 0xF = 3 ∧
    (OP_8xy5 subFlagState).registers 0 = 9 ∧ (10 + 256 - 3) % 256 = 7 := by
  refine ⟨valid_setRegisters (valid_new 0 _ (by decide)) _ _
    (fun i _ => by split_ifs <;> omega) (by decide), by decide, by decide, by decide,
    by decide, by decide⟩

/-! ## Second-level dispatch -/

theorem table0_null (n : Nat) (h0 : n ≠ 0x0) (hE : n ≠ 0xE) (hn : n ≤ 0xE) :
    table0 n = some (total OP_NULL) := by
  unfold table0
  rw [if_neg h0, if_neg hE, if_pos hn]

theorem table8_null (n : Nat) (h8 : 8 ≤ n) (hD : n ≤ 0xD) :
    table8 n = some (total OP_NULL) := by
  have e0 : n ≠ 0x0 := by omega
  have e1 : n ≠ 0x1 := by omega
  have e2 : n ≠ 0x2 := by omega
  have e3 : n ≠ 0x3 := by omega
  have e4 : n ≠ 0x4 := by omega
  have e5 : n ≠ 0x5 := by omega
  have e6 : n ≠ 0x6 := by omega
  have e7 : n ≠ 0x7 := by omega
  have eE : n ≠ 0xE := by omega
  have hn : n ≤ 0xE := by omega
  unfold table8
  rw [if_neg e0, if_neg e1, if_neg e2, if_neg e3, if_neg e4, if_neg e5, if_neg e6, if_neg e7,
    if_neg eE, if_pos hn]

theorem tableE_null (n : Nat) (h1 : n ≠ 0x1) (hE : n ≠ 0xE) (hn : n ≤ 0xE) :
    tableE n = some (total OP_NULL) := by
  unfold tableE
  rw [if_neg h1, if_neg hE, if_pos hn]

theorem tableF_null (n : Nat) (hn : n ≤ 0x65)
    (hdef : n ∉ [0x07, 0x0A, 0x15, 0x18, 0x1E, 0x29, 0x33, 0x55, 0x65]) :
    tableF n = some (total OP_NULL) := by
  simp only [List.mem_cons, List.mem_singleton, not_or, List.mem_nil_iff, not_false_eq_true,
    and_true] at hdef
  obtain ⟨h1, h2, h3, h4, h5, h6, h7, h8, h9⟩ := hdef
  unfold tableF
  rw [if_neg h1, if_neg h2, if_neg h3, if_neg h4, if_neg h5, if_neg h6, if_neg h7, if_neg h8,
    if_neg h9, if_pos hn]

/-- C13 (as stated) fails on opcode 0000, which has top nibble 0 and is
neither 00E0 nor 00EE: the entry of `table` for it is `Table0`, which indexes
`table0` by the low nibble 0 and so runs `OP_00E0`; the lit pixel at column 0,
row 1 ends unlit. -/
theorem Table0_low_nibble_alias_clears :
    (litState 0x0000).opcode = 0x0000 ∧ (litState 0x0000).video 64 = 0xFFFFFFFF ∧
    (table (((litState 0x0000).opcode &&& 0xF000) >>> 12)).map
      (fun f => (f (litState 0x0000)).toOption.map (fun s => s.video 64)) = some (some 0) := by
  refine ⟨by decide, by decide, by decide⟩

/-- C13 (amended): for every 16-bit opcode with top nibble 0x0, 0x8, 0xE or
0xF whose second-level index (the low nibble for 0x0, 0x8 and 0xE, the low
byte for 0xF) lies inside the table and is not an index assigned to an
instruction (0x0, 0xE in table0; 0x0..0x7, 0xE in table8; 0x1, 0xE in tableE;
07, 0A, 15, 18, 1E, 29, 33, 55, 65 in tableF), the handler selected by the
top-level dispatch completes and returns the state as it was. -/
theorem unassigned_index_is_noop (s : Chip8)
    (h : (s.opcode / 4096 = 0x0 ∧ s.opcode % 16 ≠ 0x0 ∧ s.opcode % 16 ≠ 0xE ∧
          s.opcode % 16 ≠ 0xF) ∨
        (s.opcode / 4096 = 0x8 ∧ 0x8 ≤ s.opcode % 16 ∧ s.opcode % 16 ≤ 0xD) ∨
        (s.opcode / 4096 = 0xE ∧ s.opcode % 16 ≠ 0x1 ∧ s.opcode % 16 ≠ 0xE ∧
          s.opcode % 16 ≠ 0xF) ∨
        (s.opcode / 4096 = 0xF ∧ s.opcode % 256 ≤ 0x65 ∧
          s.opcode % 256 ∉ [0x07, 0x0A, 0x15, 0x18, 0x1E, 0x29, 0x33, 0x55, 0x65])) :
    ∃ f, table ((s.opcode &&& 0xF000) >>> 12) = some f ∧ f s = .ok s := by
  have hn : s.opcode % 16 < 16 := Nat.mod_lt _ (by decide)
  rw [nibble_top]
  rcases h with ⟨ht, h1, h2, h3⟩ | ⟨ht, h1, h2⟩ | ⟨ht, h1, h2, h3⟩ | ⟨ht, h1, h2⟩
  · refine ⟨Table0, by rw [ht]; rfl, ?_⟩
    unfold Table0
    rw [mask_n, table0_null _ h1 h2 (by omega)]
    rfl
  · refine ⟨Table8, by rw [ht]; rfl, ?_⟩
    unfold Table8
    rw [mask_n, table8_null _ h1 h2]
    rfl
  · refine ⟨TableE, by rw [ht]; rfl, ?_⟩
    unfold TableE
    rw [mask_n, tableE_null _ h1 h2 (by omega)]
    rfl
  · refine ⟨TableF, by rw [ht]; rfl, ?_⟩
    unfold TableF
    rw [mask_kk, tableF_null _ h1 h2]
    rfl

/-- Witness for C13: opcode 8008 on a machine with a lit pixel. -/
theorem unassigned_index_is_noop_witness :
    ∃ f, table (((litState 0x8008).opcode &&& 0xF000) >>> 12) = some f ∧
      f (litState 0x8008) = .ok (litState 0x8008) :=
  unassigned_index_is_noop (litState 0x8008) (Or.inr (Or.inl (by decide)))

/-- C20 on opcodes 000F, 800F, E00F and F066: the second-level index is 15 for
the 15-entry arrays `table0`, `table8`, `tableE` and 0x66 for the 0x66-entry
array `tableF`, so `Table0`, `Table8`, `TableE` and `TableF` index their array
outside its extent, and a `Cycle` that fetches 800F ends in that out-of-range
access. -/
theorem second_level_index_out_of_range :
    0x000F &&& 0x000F = 0xF ∧ (table0 0xF).isNone = true ∧
    0x800F &&& 0x000F = 0xF ∧ (table8 0xF).isNone = true ∧
    0xE00F &&& 0x000F = 0xF ∧ (tableE 0xF).isNone = true ∧
    0xF066 &&& 0x00FF = 0x66 ∧ (tableF 0x66).isNone = true ∧
    Table0 (litState 0x000F) = .error (.table0 0xF, litState 0x000F) ∧
    Table8 (litState 0x800F) = .error (.table8 0xF, litState 0x800F) ∧
    TableE (litState 0xE00F) = .error (.tableE 0xF, litState 0xE00F) ∧
    TableF (litState 0xF066) = .error (.tableF 0x66, litState 0xF066) ∧
    fault (LoadROM (some [0x80, 0x0F]) (new 0 (fun _ => 0)) >>= Cycle) =
      some (.table8 0xF) := by
  refine ⟨by decide, by decide, by decide, by decide, by decide, by decide, by decide,
    by decide, rfl, rfl, rfl, rfl, by decide⟩

/-! ## Blocking key read -/

/-- `Cycle` when memory holds the opcode `w` at `pc` and `f` is the entry of
`table` for its top nibble. -/
theorem Cycle_dispatch (s : Chip8) (w : Nat) (f : Chip8Func) (h : holdsOpcode s s.pc w)
    (hw : w < 65536) (ht : table ((w &&& 0xF000) >>> 12) = some f) :
    Cycle s = f { s with opcode := w, pc := s.pc + 2 } >>= fun s3 => .ok (timerStep s3) := by
  rw [Cycle_of_holdsOpcode s w h hw, ht]

theorem firstKey_some (kp : Nat → Nat) :
    ∀ (n k j : Nat), firstKey kp n k = some j →
      k ≤ j ∧ j < k + n ∧ kp j ≠ 0 ∧ ∀ i, k ≤ i → i < j → kp i = 0 := by
  intro n
  induction n with
  | zero => intro k j h; simp [firstKey] at h
  | succ n ih =>
    intro k j h
    unfold firstKey at h
    by_cases hk : kp k ≠ 0
    · rw [if_pos hk] at h
      cases h
      exact ⟨Nat.le_refl k, by omega, hk, fun i h1 h2 => by omega⟩
    · rw [if_neg hk] at h
      obtain ⟨h1, h2, h3, h4⟩ := ih (k + 1) j h
      refine ⟨by omega, by omega, h3, fun i hi1 hi2 => ?_⟩
      by_cases hik : i = k
      · subst hik
        exact not_not.mp hk
      · exact h4 i (by omega) hi2

theorem firstKey_none (kp : Nat → Nat) :
    ∀ (n k : Nat), firstKey kp n k = none → ∀ i, k ≤ i → i < k + n → kp i = 0 := by
  intro n
  induction n with
  | zero => intro k _ i h1 h2; omega
  | succ n ih =>
    intro k h i h1 h2
    unfold firstKey at h
    by_cases hk : kp k ≠ 0
    · rw [if_pos hk] at h
      cases h
    · rw [if_neg hk] at h
      by_cases hik : i = k
      · subst hik
        exact not_not.mp hk
      · exact ih (k + 1) h i (by omega) (by omega)

theorem OP_Fx0A_some (t : Chip8) (x k : Nat) (hX : (t.opcode &&& 0x0F00) >>> 8 = x)
    (hk : firstKey t.keypad 16 0 = some k) :
    OP_Fx0A t = { t with registers := Function.update t.registers x k } := by
  unfold OP_Fx0A
  rw [hX, hk]

theorem OP_Fx0A_none (t : Chip8) (hk : firstKey t.keypad 16 0 = none) :
    OP_Fx0A t = { t with pc := (t.pc + 65536 - 2) % 65536 } := by
  unfold OP_Fx0A
  rw [hk]

/-- C17: when pc points at an opcode Fx0A, one `Cycle` completes; if some key
of keypad[0..15] is non-zero, register x becomes the smallest index k with
keypad[k] non-zero and pc ends at the original pc + 2; if no key is pressed,
pc ends equal to the original pc and all registers, memory and the framebuffer
are unchanged. -/
theorem Cycle_Fx0A_key_wait (s : Chip8) (x : Nat) (hx : x ≤ 15)
    (h : holdsOpcode s s.pc (0xF00A + x * 0x100)) :
    ∃ s1, Cycle s = .ok s1 ∧
      ((∃ k, k < 16 ∧ s.keypad k ≠ 0) →
        ∃ k, k < 16 ∧ s.keypad k ≠ 0 ∧ (∀ j, j < k → s.keypad j = 0) ∧
          s1.registers x = k ∧ s1.pc = s.pc + 2) ∧
      ((∀ k, k < 16 → s.keypad k = 0) →
        s1.pc = s.pc ∧ s1.registers = s.registers ∧ s1.memory = s.memory ∧
          s1.video = s.video) := by
  have hpc : s.pc + 1 < 4096 := h.1
  have htop : ((0xF00A + x * 0x100) &&& 0xF000) >>> 12 = 0xF := by rw [nibble_top]; omega
  have hlow : (0xF00A + x * 0x100) &&& 0x00FF = 0x0A := by rw [mask_kk]; omega
  have hX : ((0xF00A + x * 0x100) &&& 0x0F00) >>> 8 = x := by rw [nibble_x]; omega
  have hcycle : Cycle s = .ok (timerStep
      (OP_Fx0A { s with opcode := 0xF00A + x * 0x100, pc := s.pc + 2 })) := by
    rw [Cycle_dispatch s _ TableF h (by omega) (by rw [htop]; rfl)]
    unfold TableF
    simp only [hlow]
    rfl
  obtain ⟨fpc, -, fmem, -, freg, -, fvideo, -⟩ := timerStep_frame
    (OP_Fx0A { s with opcode := 0xF00A + x * 0x100, pc := s.pc + 2 })
  refine ⟨_, hcycle, ?_, ?_⟩
  · rintro ⟨k0, hk0, hp0⟩
    cases hfk : firstKey s.keypad 16 0 with
    | none => exact (hp0 (firstKey_none _ _ _ hfk k0 (Nat.zero_le _) (by omega))).elim
    | some k =>
      obtain ⟨-, h2, h3, h4⟩ := firstKey_some _ _ _ _ hfk
      have hsome := OP_Fx0A_some { s with opcode := 0xF00A + x * 0x100, pc := s.pc + 2 }
        x k hX hfk
      refine ⟨k, by omega, h3, fun j hj => h4 j (Nat.zero_le _) hj, ?_, ?_⟩
      · rw [freg, hsome]
        exact Function.update_same _ _ _
      · rw [fpc, hsome]
  · intro hnone
    cases hfk : firstKey s.keypad 16 0 with
    | some k =>
      obtain ⟨-, h2, h3, -⟩ := firstKey_some _ _ _ _ hfk
      exact (h3 (hnone k (by omega))).elim
    | none =>
      have hnone1 := OP_Fx0A_none { s with opcode := 0xF00A + x * 0x100, pc := s.pc + 2 } hfk
      rw [fpc, freg, fmem, fvideo, hnone1]
      refine ⟨?_, rfl, rfl, rfl⟩
      show (s.pc + 2 + 65536 - 2) % 65536 = s.pc
      omega

/-- Witness for C17: opcode F20A at 0x200 with keys 3 and 7 pressed; V2
becomes 3 and pc ends at 0x202. -/
theorem Cycle_Fx0A_key_wait_witness :
    ∃ s1, Cycle keyWaitState = .ok s1 ∧ s1.registers 2 = 3 ∧ s1.pc = 0x202 := by
  obtain ⟨s1, hrun, hkey, -⟩ :=
    Cycle_Fx0A_key_wait keyWaitState 2 (by decide) (by decide)
  obtain ⟨k, hk, hp, hmin, hreg, hpc⟩ := hkey ⟨7, by decide, by decide⟩
  have hk3 : k = 3 := by
    have h3 : keyWaitState.keypad 3 ≠ 0 := by decide
    have hle : ¬ 3 < k := fun hlt => h3 (hmin 3 hlt)
    have hge : ¬ k < 3 := by
      intro hlt
      have : ∀ j, j < 3 → keyWaitState.keypad j = 0 := by decide
      exact hp (this k hlt)
    omega
  exact ⟨s1, hrun, by rw [hreg, hk3], hpc⟩

/-! ## Block transfer -/

/-- The loop of `OP_Fx55` while it stays inside `memory`. -/
theorem storeLoop_ok :
    ∀ (k i : Nat) (s : Chip8), s.index + i + k ≤ 4096 →
      forLoop (fun i s1 => writeMemory (s1.index + i) (s1.registers i) s1) k i s =
        .ok { s with memory := stored s.registers s.index i (i + k) s.memory } := by
  intro k
  induction k with
  | zero =>
    intro i s _
    have : stored s.registers s.index i (i + 0) s.memory = s.memory := by
      funext a
      unfold stored
      rw [if_neg (by omega)]
    rw [this]
    rfl
  | succ k ih =>
    intro i s h
    unfold forLoop
    rw [writeMemory_ok _ _ _ (by omega)]
    simp only [bind, Except.bind]
    rw [ih (i + 1) _ (by exact (by omega : s.index + (i + 1) + k ≤ 4096))]
    congr 2
    funext a
    unfold stored
    simp only [Function.update_apply]
    by_cases h1 : a = s.index + i
    · subst h1
      rw [if_neg (by omega), if_pos rfl, if_pos (by omega), Nat.add_sub_cancel_left]
    · rw [if_neg h1]
      by_cases h2 : s.index + (i + 1) ≤ a ∧ a < s.index + (i + 1 + k)
      · rw [if_pos h2, if_pos (by omega)]
      · rw [if_neg h2, if_neg (by omega)]

/-- The loop of `OP_Fx65` while it stays inside `memory`. -/
theorem loadLoop_ok :
    ∀ (k i : Nat) (s : Chip8), s.index + i + k ≤ 4096 →
      forLoop (fun i s1 =>
          readMemory s1 (s1.index + i) >>= fun v =>
            .ok { s1 with registers := Function.update s1.registers i v }) k i s =
        .ok { s with registers := fetched s.memory s.index i (i + k) s.registers } := by
  intro k
  induction k with
  | zero =>
    intro i s _
    have : fetched s.memory s.index i (i + 0) s.registers = s.registers := by
      funext a
      unfold fetched
      rw [if_neg (by omega)]
    rw [this]
    rfl
  | succ k ih =>
    intro i s h
    unfold forLoop
    rw [readMemory_ok _ _ (by omega)]
    refine (ih (i + 1)
      { s with registers := Function.update s.registers i (s.memory (s.index + i)) }
      (by exact (by omega : s.index + (i + 1) + k ≤ 4096))).trans ?_
    congr 2
    funext j
    unfold fetched
    simp only [Function.update_apply]
    by_cases h1 : j = i
    · subst h1
      rw [if_neg (by omega), if_pos rfl, if_pos (by omega)]
    · rw [if_neg h1]
      by_cases h2 : i + 1 ≤ j ∧ j < i + 1 + k
      · rw [if_pos h2, if_pos (by omega)]
      · rw [if_neg h2, if_neg (by omega)]

theorem OP_Fx55_ok (s : Chip8) (N : Nat) (hX : (s.opcode &&& 0x0F00) >>> 8 = N)
    (h : s.index + N < 4096) :
    OP_Fx55 s = .ok { s with memory := stored s.registers s.index 0 (0 + (N + 1)) s.memory } := by
  unfold OP_Fx55
  rw [hX]
  exact storeLoop_ok (N + 1) 0 s (by omega)

theorem OP_Fx65_ok (s : Chip8) (N : Nat) (hX : (s.opcode &&& 0x0F00) >>> 8 = N)
    (h : s.index + N < 4096) :
    OP_Fx65 s =
      .ok { s with registers := fetched s.memory s.index 0 (0 + (N + 1)) s.registers } := by
  unfold OP_Fx65
  rw [hX]
  exact loadLoop_ok (N + 1) 0 s (by omega)

/-- C18: for every N in 0..15 and every state s with index + N < 4096,
`OP_Fx55` with x = N completes, writes memory[index + i] = Vi for every i in
0..N, and leaves all other memory cells and the index register unchanged; if
the registers are then replaced by arbitrary values `regs`, `OP_Fx65` with
x = N completes, restores registers 0..N to their values in s and leaves every
register above N at its value in `regs`. -/
theorem OP_Fx55_then_OP_Fx65 (s : Chip8) (N : Nat) (hN : N ≤ 15)
    (hop : s.opcode = 0xF055 + N * 0x100) (hi : s.index + N < 4096) :
    ∃ s1, OP_Fx55 s = .ok s1 ∧
      (∀ i, i ≤ N → s1.memory (s.index + i) = s.registers i) ∧
      (∀ a, a < s.index ∨ s.index + N < a → s1.memory a = s.memory a) ∧
      s1.index = s.index ∧
      ∀ regs : Nat → Nat,
        ∃ s2, OP_Fx65 { s1 with registers := regs, opcode := 0xF065 + N * 0x100 } = .ok s2 ∧
          (∀ i, i ≤ N → s2.registers i = s.registers i) ∧
          (∀ j, N < j → s2.registers j = regs j) := by
  have hX : (s.opcode &&& 0x0F00) >>> 8 = N := by rw [nibble_x, hop]; omega
  have hX2 : ((0xF065 + N * 0x100) &&& 0x0F00) >>> 8 = N := by rw [nibble_x]; omega
  have hmem : ∀ i, i ≤ N →
      stored s.registers s.index 0 (0 + (N + 1)) s.memory (s.index + i) = s.registers i := by
    intro i hiN
    unfold stored
    rw [if_pos (by omega), Nat.add_sub_cancel_left]
  refine ⟨_, OP_Fx55_ok s N hX hi, hmem, ?_, rfl, ?_⟩
  · intro a ha
    show stored s.registers s.index 0 (0 + (N + 1)) s.memory a = s.memory a
    unfold stored
    rw [if_neg (by omega)]
  · intro regs
    refine ⟨_, OP_Fx65_ok
      { s with memory := stored s.registers s.index 0 (0 + (N + 1)) s.memory,
               registers := regs, opcode := 0xF065 + N * 0x100 } N hX2 hi, ?_, ?_⟩
    · intro i hiN
      show fetched (stored s.registers s.index 0 (0 + (N + 1)) s.memory) s.index 0
        (0 + (N + 1)) regs i = s.registers i
      unfold fetched
      rw [if_pos (by omega)]
      exact hmem i hiN
    · intro j hj
      show fetched (stored s.registers s.index 0 (0 + (N + 1)) s.memory) s.index 0
        (0 + (N + 1)) regs j = regs j
      unfold fetched
      rw [if_neg (by omega)]

/-- Witness for C18: V0..V2 = 11, 22, 33 stored at 0x300 by F255, the
registers then all set to 9, and F265 run. -/
theorem OP_Fx55_then_OP_Fx65_witness :
    ∃ s1, OP_Fx55 blockState = .ok s1 ∧
      s1.memory 0x300 = 11 ∧ s1.memory 0x301 = 22 ∧ s1.memory 0x302 = 33 ∧
      s1.memory 0x303 = 0 ∧ s1.index = 0x300 ∧
      ∃ s2, OP_Fx65 { s1 with registers := fun _ => 9, opcode := 0xF065 + 2 * 0x100 } = .ok s2 ∧
        s2.registers 0 = 11 ∧ s2.registers 1 = 22 ∧ s2.registers 2 = 33 ∧
        s2.registers 3 = 9 := by
  obtain ⟨s1, hrun, hst, hkeep, hidx, hload⟩ :=
    OP_Fx55_then_OP_Fx65 blockState 2 (by decide) (by decide) (by decide)
  obtain ⟨s2, hrun2, hback, hrest⟩ := hload (fun _ => 9)
  exact ⟨s1, hrun, hst 0 (by decide), hst 1 (by decide), hst 2 (by decide),
    (hkeep 0x303 (Or.inr (by decide))).trans (by decide), hidx, s2, hrun2,
    hback 0 (by decide), hback 1 (by decide), hback 2 (by decide), hrest 3 (by decide)⟩

/-! ## Cycle on clear, set-index and draw opcodes -/

/-- One `Cycle` on the opcode 00E0. -/
theorem Cycle_clear (s : Chip8) (h : holdsOpcode s s.pc 0x00E0) :
    ∃ s1, Cycle s = .ok s1 ∧ s1.pc = s.pc + 2 ∧ s1.video = (fun _ => 0) ∧
      s1.memory = s.memory ∧ s1.registers = s.registers ∧ s1.index = s.index := by
  have hc : Cycle s = .ok (timerStep (OP_00E0 { s with opcode := 0x00E0, pc := s.pc + 2 })) := by
    rw [Cycle_dispatch s _ Table0 h (by decide) rfl]
    unfold Table0
    simp only [show (0x00E0 : Nat) &&& 0x000F = 0 from rfl]
    rfl
  obtain ⟨fpc, -, fmem, -, freg, fidx, fvideo, -⟩ :=
    timerStep_frame (OP_00E0 { s with opcode := 0x00E0, pc := s.pc + 2 })
  exact ⟨_, hc, fpc, fvideo, fmem, freg, fidx⟩

/-- One `Cycle` on an opcode Annn. -/
theorem Cycle_setIndex (s : Chip8) (nnn : Nat) (hn : nnn ≤ 0xFFF)
    (h : holdsOpcode s s.pc (0xA000 + nnn)) :
    ∃ s1, Cycle s = .ok s1 ∧ s1.pc = s.pc + 2 ∧ s1.index = nnn ∧ s1.video = s.video ∧
      s1.memory = s.memory ∧ s1.registers = s.registers := by
  have htop : ((0xA000 + nnn) &&& 0xF000) >>> 12 = 0xA := by rw [nibble_top]; omega
  have haddr : (0xA000 + nnn) &&& 0x0FFF = nnn := by rw [mask_nnn]; omega
  have hc : Cycle s =
      .ok (timerStep (OP_Annn { s with opcode := 0xA000 + nnn, pc := s.pc + 2 })) := by
    rw [Cycle_dispatch s _ (total OP_Annn) h (by omega) (by rw [htop]; rfl)]
    rfl
  obtain ⟨fpc, -, fmem, -, freg, fidx, fvideo, -⟩ :=
    timerStep_frame (OP_Annn { s with opcode := 0xA000 + nnn, pc := s.pc + 2 })
  refine ⟨_, hc, fpc, ?_, fvideo, fmem, freg⟩
  rw [fidx]
  exact haddr

/-- One `Cycle` on an opcode Dxyn whose sprite lies inside the framebuffer
and memory: exactly the cells under the set bits of the sprite are XORed with
0xFFFFFFFF, and register 0xF ends as 1 when one of them held 0xFFFFFFFF and as
0 otherwise. -/
theorem Cycle_draw (s : Chip8) (x y n : Nat) (hx : x ≤ 15) (hy : y ≤ 15) (hn : n ≤ 15)
    (h : holdsOpcode s s.pc (0xD000 + x * 0x100 + y * 0x10 + n))
    (hxin : s.registers x % 64 + 8 ≤ 64) (hyin : s.registers y % 32 + n ≤ 32)
    (hmem : s.index + n ≤ 4096) :
    ∃ s1, Cycle s = .ok s1 ∧ s1.pc = s.pc + 2 ∧
      (∀ i, (∃ r c, r < n ∧ c < 8 ∧ s.memory (s.index + r) &&& (0x80 >>> c) ≠ 0 ∧
          i = (s.registers y % 32 + r) * 64 + (s.registers x % 64 + c)) →
        s1.video i = s.video i ^^^ 0xFFFFFFFF) ∧
      (∀ i, (¬ ∃ r c, r < n ∧ c < 8 ∧ s.memory (s.index + r) &&& (0x80 >>> c) ≠ 0 ∧
          i = (s.registers y % 32 + r) * 64 + (s.registers x % 64 + c)) →
        s1.video i = s.video i) ∧
      ((∃ i, (∃ r c, r < n ∧ c < 8 ∧ s.memory (s.index + r) &&& (0x80 >>> c) ≠ 0 ∧
          i = (s.registers y % 32 + r) * 64 + (s.registers x % 64 + c)) ∧
          s.video i = 0xFFFFFFFF) → s1.registers 0xF = 1) ∧
      ((¬ ∃ i, (∃ r c, r < n ∧ c < 8 ∧ s.memory (s.index + r) &&& (0x80 >>> c) ≠ 0 ∧
          i = (s.registers y % 32 + r) * 64 + (s.registers x % 64 + c)) ∧
          s.video i = 0xFFFFFFFF) → s1.registers 0xF = 0) := by
  have htop : ((0xD000 + x * 0x100 + y * 0x10 + n) &&& 0xF000) >>> 12 = 0xD := by
    rw [nibble_top]; omega
  have hX : ((0xD000 + x * 0x100 + y * 0x10 + n) &&& 0x0F00) >>> 8 = x := by
    rw [nibble_x]; omega
  have hY : ((0xD000 + x * 0x100 + y * 0x10 + n) &&& 0x00F0) >>> 4 = y := by
    rw [nibble_y]; omega
  have hN : (0xD000 + x * 0x100 + y * 0x10 + n) &&& 0x000F = n := by rw [mask_n]; omega
  obtain ⟨d, hd, drawn⟩ := OP_Dxyn_drawn
    { s with opcode := 0xD000 + x * 0x100 + y * 0x10 + n, pc := s.pc + 2 } x y n hX hY hN
    hxin hyin hmem
  have hc : Cycle s = .ok (timerStep d) := by
    rw [Cycle_dispatch s _ OP_Dxyn h (by omega) (by rw [htop]; rfl), hd]
    rfl
  obtain ⟨fpc, -, -, -, freg, -, fvideo, -⟩ := timerStep_frame d
  refine ⟨_, hc, ?_, ?_, ?_, ?_, ?_⟩
  · rw [fpc, drawn.pc]
  · intro i hi
    rw [fvideo]
    exact drawn.toggled i hi
  · intro i hi
    rw [fvideo]
    exact drawn.kept i hi
  · intro hcol
    rw [freg]
    exact drawn.collide hcol
  · intro hno
    rw [freg, drawn.noCollide hno]
    exact Function.update_same (0xF : Nat) (0 : Nat) s.registers

/-! ## Scenario: clear, point at glyph 0, draw -/

theorem cycles_three (s0 s1 s2 s3 : Chip8) (h1 : Cycle s0 = .ok s1) (h2 : Cycle s1 = .ok s2)
    (h3 : Cycle s2 = .ok s3) : cycles 3 s0 = .ok s3 := by
  show Cycle s0 >>= cycles 2 = _
  rw [h1]
  show Cycle s1 >>= cycles 1 = _
  rw [h2]
  show Cycle s2 >>= cycles 0 = _
  rw [h3]
  rfl

/-- The memory of a fresh machine after the copy of `glyphImage`: the three
opcodes at 0x200, 0x202, 0x204 and the glyph of digit 0 at 0x050. -/
theorem glyphImage_loaded :
    holdsOpcode { new 0 (fun _ => 0) with
        memory := copied glyphImage START_ADDRESS (START_ADDRESS + glyphImage.length)
          (new 0 (fun _ => 0)).memory } 0x200 0x00E0 ∧
    holdsOpcode { new 0 (fun _ => 0) with
        memory := copied glyphImage START_ADDRESS (START_ADDRESS + glyphImage.length)
          (new 0 (fun _ => 0)).memory } 0x202 0xA050 ∧
    holdsOpcode { new 0 (fun _ => 0) with
        memory := copied glyphImage START_ADDRESS (START_ADDRESS + glyphImage.length)
          (new 0 (fun _ => 0)).memory } 0x204 0xD005 ∧
    ∀ r, r < 5 →
      copied glyphImage START_ADDRESS (START_ADDRESS + glyphImage.length)
        (new 0 (fun _ => 0)).memory (0x50 + r) = [0xF0, 0x90, 0x90, 0x90, 0xF0].getD r 0 := by
  refine ⟨by decide, by decide, by decide, by decide⟩

/-- C12: on a freshly constructed machine loaded with 00E0 A050 D005 at 0x200
three `Cycle`s complete; afterwards the framebuffer pixel at column c, row r
is lit (holds 0xFFFFFFFF) exactly when r < 5, c < 8 and bit (7 - c) of the
r-th byte of the glyph of digit 0 is set, every other pixel of the 64x32 grid
is unlit (holds 0), and register 0xF equals 0. -/
theorem scenario_draws_glyph0 (opcode0 : Nat) (rand : Nat → Nat) :
    ∃ s0 s3, LoadROM (some glyphImage) (new opcode0 rand) = .ok s0 ∧ cycles 3 s0 = .ok s3 ∧
      (∀ c r, c < 64 → r < 32 →
        (s3.video (r * 64 + c) = 0xFFFFFFFF ↔
          r < 5 ∧ c < 8 ∧ ([0xF0, 0x90, 0x90, 0x90, 0xF0].getD r 0).testBit (7 - c) = true) ∧
        (s3.video (r * 64 + c) = 0xFFFFFFFF ∨ s3.video (r * 64 + c) = 0)) ∧
      s3.registers 0xF = 0 := by
  obtain ⟨s0, hload, hpc0, hreg0, hop0, hop1, hop2, hfont⟩ :
      ∃ s0, LoadROM (some glyphImage) (new opcode0 rand) = .ok s0 ∧ s0.pc = 0x200 ∧
        s0.registers = (fun _ => 0) ∧ holdsOpcode s0 0x200 0x00E0 ∧
        holdsOpcode s0 0x202 0xA050 ∧ holdsOpcode s0 0x204 0xD005 ∧
        ∀ r, r < 5 → s0.memory (0x50 + r) = [0xF0, 0x90, 0x90, 0x90, 0xF0].getD r 0 := by
    obtain ⟨h0, h1, h2, hf⟩ := glyphImage_loaded
    exact ⟨_, LoadROM_ok glyphImage _ (by decide), rfl, rfl, h0, h1, h2, hf⟩
  obtain ⟨s1, hc1, hpc1, hv1, hm1, hr1, -⟩ := Cycle_clear s0 (by rw [hpc0]; exact hop0)
  obtain ⟨s2, hc2, hpc2, hi2, hv2, hm2, hr2⟩ := Cycle_setIndex s1 0x050 (by decide)
    (by rw [hpc1, hpc0]; unfold holdsOpcode; rw [hm1]; exact hop1)
  have hregs2 : s2.registers = (fun _ => 0) := by rw [hr2, hr1, hreg0]
  have hvideo2 : s2.video = (fun _ => 0) := by rw [hv2, hv1]
  have hmem2 : s2.memory = s0.memory := by rw [hm2, hm1]
  obtain ⟨s3, hc3, -, htog, hkept, -, hno⟩ := Cycle_draw s2 0 0 5 (by decide) (by decide)
    (by decide)
    (by rw [hpc2, hpc1, hpc0]; unfold holdsOpcode; rw [hmem2]; exact hop2)
    (by rw [hregs2]; decide) (by rw [hregs2]; decide) (by rw [hi2]; decide)
  rw [hregs2, hvideo2, hmem2, hi2] at htog hkept hno
  simp only [] at htog hkept hno
  have hT : ∀ c r, c < 64 → r < 32 →
      ((∃ r1 c1, r1 < 5 ∧ c1 < 8 ∧ s0.memory (0x050 + r1) &&& (0x80 >>> c1) ≠ 0 ∧
          r * 64 + c = (0 % 32 + r1) * 64 + (0 % 64 + c1)) ↔
        r < 5 ∧ c < 8 ∧ ([0xF0, 0x90, 0x90, 0x90, 0xF0].getD r 0).testBit (7 - c) = true) := by
    intro c r hc hr
    constructor
    · rintro ⟨r1, c1, hr1, hc1, hb, hi⟩
      have hrr : r1 = r := by omega
      have hcc : c1 = c := by omega
      subst hrr hcc
      rw [hfont r1 hr1] at hb
      exact ⟨hr1, hc1, (spritePixel_ne_zero_iff _ c1 hc1).mp hb⟩
    · rintro ⟨hr5, hc8, hb⟩
      refine ⟨r, c, hr5, hc8, ?_, by omega⟩
      rw [hfont r hr5]
      exact (spritePixel_ne_zero_iff _ c hc8).mpr hb
  refine ⟨s0, s3, hload, cycles_three s0 s1 s2 s3 hc1 hc2 hc3, ?_, ?_⟩
  · intro c r hc hr
    by_cases hpix : ∃ r1 c1, r1 < 5 ∧ c1 < 8 ∧ s0.memory (0x050 + r1) &&& (0x80 >>> c1) ≠ 0 ∧
        r * 64 + c = (0 % 32 + r1) * 64 + (0 % 64 + c1)
    · have hv : s3.video (r * 64 + c) = 0xFFFFFFFF := by
        rw [htog _ hpix]
        rfl
      exact ⟨⟨fun _ => (hT c r hc hr).mp hpix, fun _ => hv⟩, Or.inl hv⟩
    · have hv : s3.video (r * 64 + c) = 0 := hkept _ hpix
      refine ⟨⟨fun h => ?_, fun h => (hpix ((hT c r hc hr).mpr h)).elim⟩, Or.inr hv⟩
      rw [hv] at h
      exact absurd h (by decide)
  · apply hno
    rintro ⟨i, -, hlit⟩
    exact absurd hlit (by decide)

/-! ## Glyph address -/

/-- C21 (as stated) fails on opcode F029 with V0 = 0x10: `OP_Fx29` sets index
to 0x50 + 5 * 16 = 0xA0, one past the font table, while 0x50 + 5 * (16 mod 16)
is 0x50. -/
theorem OP_Fx29_uses_whole_byte :
    (glyphAddressState 0x10).opcode = 0xF029 + 0 * 0x100 ∧
    (glyphAddressState 0x10).registers 0 = 0x10 ∧
    (OP_Fx29 (glyphAddressState 0x10)).index = 0xA0 ∧
    0x50 + 5 * (0x10 % 16) = 0x50 ∧
    ¬ ((OP_Fx29 (glyphAddressState 0x10)).index ≤ 0x09B) := by
  refine ⟨by decide, by decide, by decide, by decide, by decide⟩

/-- C21 (amended): for every register x holding an 8-bit value v, after
`OP_Fx29` the index register equals 0x50 + 5 * v, computed from the whole
byte; when v is in 0..15 this is 0x50 + 5 * (v mod 16), the first byte of the
glyph of digit v, inside 0x050..0x09B; when v is 16 or more it lies at or past
0x0A0, beyond the font table. -/
theorem OP_Fx29_glyph_address (s : Chip8) (x v : Nat) (hx : x ≤ 15)
    (hop : s.opcode = 0xF029 + x * 0x100) (hv : s.registers x = v) (hv8 : v < 256) :
    (OP_Fx29 s).index = 0x50 + 5 * v ∧
    (v ≤ 15 → (OP_Fx29 s).index = 0x50 + 5 * (v % 16) ∧
      0x050 ≤ (OP_Fx29 s).index ∧ (OP_Fx29 s).index ≤ 0x09B) ∧
    (16 ≤ v → 0x0A0 ≤ (OP_Fx29 s).index) := by
  have hX : (s.opcode &&& 0x0F00) >>> 8 = x := by rw [nibble_x, hop]; omega
  have hidx : (OP_Fx29 s).index = 0x50 + 5 * v := by
    unfold OP_Fx29 FONTSET_START_ADDRESS
    rw [hX]
    simp only [hv]
    omega
  refine ⟨hidx, fun h15 => ?_, fun h16 => ?_⟩
  · rw [hidx]
    omega
  · rw [hidx]
    omega

/-- Witness for C21: V0 = 7 on opcode F029; index ends as 0x73, the first
byte of the glyph of digit 7. -/
theorem OP_Fx29_glyph_address_witness :
    (OP_Fx29 (glyphAddressState 7)).index = 0x50 + 5 * 7 ∧
    (OP_Fx29 (glyphAddressState 7)).index = 0x50 + 5 * (7 % 16) ∧
    0x050 ≤ (OP_Fx29 (glyphAddressState 7)).index ∧
    (OP_Fx29 (glyphAddressState 7)).index ≤ 0x09B :=
  ⟨(OP_Fx29_glyph_address (glyphAddressState 7) 0 7 (by decide) (by decide) (by decide)
      (by decide)).1,
    (OP_Fx29_glyph_address (glyphAddressState 7) 0 7 (by decide) (by decide) (by decide)
      (by decide)).2.1 (by decide)⟩

/-! ## Stack pointer -/

theorem bind_ok {α : Type} (x : Exec α) (f : α → Exec Chip8) (s1 : Chip8)
    (h : x >>= f = .ok s1) : ∃ v, x = .ok v ∧ f v = .ok s1 := by
  cases x with
  | error e => cases h
  | ok v => exact ⟨v, rfl, h⟩

/-- A loop whose body keeps `sp` keeps `sp`. -/
theorem forLoop_sp (body : Nat → Chip8 → Exec Chip8)
    (hb : ∀ i s s1, body i s = .ok s1 → s1.sp = s.sp) :
    ∀ (k i : Nat) (s s1 : Chip8), forLoop body k i s = .ok s1 → s1.sp = s.sp := by
  intro k
  induction k with
  | zero =>
    intro i s s1 h
    cases h
    rfl
  | succ k ih =>
    intro i s s1 h
    obtain ⟨s2, h2, h3⟩ := bind_ok _ _ _ h
    rw [ih (i + 1) s2 s1 h3, hb i s s2 h2]

theorem writeMemory_sp (i v : Nat) (s s1 : Chip8) (h : writeMemory i v s = .ok s1) :
    s1.sp = s.sp := by
  unfold writeMemory at h
  split_ifs at h
  cases h
  rfl

theorem readMemory_bind_sp (s : Chip8) (i : Nat) (f : Nat → Exec Chip8) (s1 : Chip8)
    (hf : ∀ v, f v = .ok s1 → s1.sp = s.sp) (h : readMemory s i >>= f = .ok s1) :
    s1.sp = s.sp := by
  obtain ⟨v, -, h2⟩ := bind_ok _ _ _ h
  exact hf v h2

theorem drawPixel_sp (b x y r c : Nat) (s s1 : Chip8) (h : drawPixel b x y r c s = .ok s1) :
    s1.sp = s.sp := by
  simp only [drawPixel] at h
  split_ifs at h <;> cases h <;> rfl

theorem OP_Dxyn_sp (s s1 : Chip8) (h : OP_Dxyn s = .ok s1) : s1.sp = s.sp := by
  simp only [OP_Dxyn] at h
  have hloop := forLoop_sp _ (fun i t t1 ht => by
    unfold drawRow at ht
    exact readMemory_bind_sp t _ _ t1
      (fun v hv => forLoop_sp _ (fun c u u1 hu => drawPixel_sp _ _ _ _ _ u u1 hu) _ _ _ _ hv)
      ht) _ _ _ _ h
  exact hloop

theorem OP_Fx33_sp (s s1 : Chip8) (h : OP_Fx33 s = .ok s1) : s1.sp = s.sp := by
  unfold OP_Fx33 at h
  obtain ⟨a, ha, h2⟩ := bind_ok _ _ _ h
  obtain ⟨b, hb, h3⟩ := bind_ok _ _ _ h2
  rw [writeMemory_sp _ _ _ _ h3, writeMemory_sp _ _ _ _ hb, writeMemory_sp _ _ _ _ ha]

theorem OP_Fx55_sp (s s1 : Chip8) (h : OP_Fx55 s = .ok s1) : s1.sp = s.sp := by
  unfold OP_Fx55 at h
  exact forLoop_sp _ (fun i t t1 ht => writeMemory_sp _ _ _ _ ht) _ _ _ _ h

theorem OP_Fx65_sp (s s1 : Chip8) (h : OP_Fx65 s = .ok s1) : s1.sp = s.sp := by
  unfold OP_Fx65 at h
  refine forLoop_sp _ (fun i t t1 ht => ?_) _ _ _ _ h
  refine readMemory_bind_sp t _ _ t1 (fun v hv => ?_) ht
  cases hv
  rfl

theorem OP_Ex9E_sp (s s1 : Chip8) (h : OP_Ex9E s = .ok s1) : s1.sp = s.sp := by
  simp only [OP_Ex9E] at h
  split_ifs at h <;> cases h <;> rfl

theorem OP_ExA1_sp (s s1 : Chip8) (h : OP_ExA1 s = .ok s1) : s1.sp = s.sp := by
  simp only [OP_ExA1] at h
  split_ifs at h <;> cases h <;> rfl

theorem total_spBounded (f : Chip8 → Chip8) (hf : ∀ s, (f s).sp = s.sp) :
    SpBounded (total f) := by
  intro s s1 h hs
  unfold total at h
  cases h
  rw [hf]
  exact hs

theorem OP_00EE_spBounded : SpBounded OP_00EE := by
  intro s s1 h _
  simp only [OP_00EE] at h
  split_ifs at h with hlt
  cases h
  exact Nat.le_of_lt hlt

theorem OP_2nnn_spBounded : SpBounded OP_2nnn := by
  intro s s1 h _
  simp only [OP_2nnn] at h
  split_ifs at h with hlt
  cases h
  show (s.sp + 1) % 256 ≤ 16
  omega

theorem spBounded_of_sp (f : Chip8Func) (hf : ∀ s s1, f s = .ok s1 → s1.sp = s.sp) :
    SpBounded f := by
  intro s s1 h hs
  rw [hf s s1 h]
  exact hs

/-- A call through a table entry keeps the bound when every entry does. -/
theorem entry_spBounded (e : Option Chip8Func) (a : Access)
    (he : ∀ f, e = some f → SpBounded f) (s s1 : Chip8)
    (h : (match e with
      | some f => f s
      | none => .error (a, s)) = .ok s1) (hs : s.sp ≤ 16) : s1.sp ≤ 16 := by
  cases e with
  | none => cases h
  | some f => exact he f rfl s s1 h hs

theorem table0_spBounded (i : Nat) (f : Chip8Func) (h : table0 i = some f) : SpBounded f := by
  unfold table0 at h
  split_ifs at h <;> cases h
  · exact total_spBounded _ (fun _ => rfl)
  · exact OP_00EE_spBounded
  · exact total_spBounded _ (fun _ => rfl)

theorem table8_spBounded (i : Nat) (f : Chip8Func) (h : table8 i = some f) : SpBounded f := by
  unfold table8 at h
  split_ifs at h <;> cases h
  · exact total_spBounded _ (fun _ => rfl)
  · exact total_spBounded _ (fun _ => rfl)
  · exact total_spBounded _ (fun _ => rfl)
  · exact total_spBounded _ (fun _ => rfl)
  · exact total_spBounded _ (fun s => by simp only [OP_8xy4]; split_ifs <;> rfl)
  · exact total_spBounded _ (fun s => by simp only [OP_8xy5]; split_ifs <;> rfl)
  · exact total_spBounded _ (fun _ => rfl)
  · exact total_spBounded _ (fun s => by simp only [OP_8xy7]; split_ifs <;> rfl)
  · exact total_spBounded _ (fun _ => rfl)
  · exact total_spBounded _ (fun _ => rfl)

theorem tableE_spBounded (i : Nat) (f : Chip8Func) (h : tableE i = some f) : SpBounded f := by
  unfold tableE at h
  split_ifs at h <;> cases h
  · exact spBounded_of_sp _ OP_ExA1_sp
  · exact spBounded_of_sp _ OP_Ex9E_sp
  · exact total_spBounded _ (fun _ => rfl)

theorem tableF_spBounded (i : Nat) (f : Chip8Func) (h : tableF i = some f) : SpBounded f := by
  unfold tableF at h
  split_ifs at h <;> cases h
  · exact total_spBounded _ (fun _ => rfl)
  · exact total_spBounded _ (fun s => by simp only [OP_Fx0A]; split <;> rfl)
  · exact total_spBounded _ (fun _ => rfl)
  · exact total_spBounded _ (fun _ => rfl)
  · exact total_spBounded _ (fun _ => rfl)
  · exact total_spBounded _ (fun _ => rfl)
  · exact spBounded_of_sp _ OP_Fx33_sp
  · exact spBounded_of_sp _ OP_Fx55_sp
  · exact spBounded_of_sp _ OP_Fx65_sp
  · exact total_spBounded _ (fun _ => rfl)

theorem table_spBounded (i : Nat) (f : Chip8Func) (h : table i = some f) : SpBounded f := by
  unfold table at h
  by_cases c0 : i = 0x0
  · rw [if_pos c0] at h
    cases h
    exact fun s s1 h1 hs => entry_spBounded _ _ (table0_spBounded _) s s1 h1 hs
  rw [if_neg c0] at h
  by_cases c1 : i = 0x1
  · rw [if_pos c1] at h
    cases h
    exact total_spBounded _ (fun _ => rfl)
  rw [if_neg c1] at h
  by_cases c2 : i = 0x2
  · rw [if_pos c2] at h
    cases h
    exact OP_2nnn_spBounded
  rw [if_neg c2] at h
  by_cases c3 : i = 0x3
  · rw [if_pos c3] at h
    cases h
    exact total_spBounded _ (fun s => by simp only [OP_3xkk]; split_ifs <;> rfl)
  rw [if_neg c3] at h
  by_cases c4 : i = 0x4
  · rw [if_pos c4] at h
    cases h
    exact total_spBounded _ (fun s => by simp only [OP_4xkk]; split_ifs <;> rfl)
  rw [if_neg c4] at h
  by_cases c5 : i = 0x5
  · rw [if_pos c5] at h
    cases h
    exact total_spBounded _ (fun s => by simp only [OP_5xy0]; split_ifs <;> rfl)
  rw [if_neg c5] at h
  by_cases c6 : i = 0x6
  · rw [if_pos c6] at h
    cases h
    exact total_spBounded _ (fun _ => rfl)
  rw [if_neg c6] at h
  by_cases c7 : i = 0x7
  · rw [if_pos c7] at h
    cases h
    exact total_spBounded _ (fun _ => rfl)
  rw [if_neg c7] at h
  by_cases c8 : i = 0x8
  · rw [if_pos c8] at h
    cases h
    exact fun s s1 h1 hs => entry_spBounded _ _ (table8_spBounded _) s s1 h1 hs
  rw [if_neg c8] at h
  by_cases c9 : i = 0x9
  · rw [if_pos c9] at h
    cases h
    exact total_spBounded _ (fun s => by simp only [OP_9xy0]; split_ifs <;> rfl)
  rw [if_neg c9] at h
  by_cases cA : i = 0xA
  · rw [if_pos cA] at h
    cases h
    exact total_spBounded _ (fun _ => rfl)
  rw [if_neg cA] at h
  by_cases cB : i = 0xB
  · rw [if_pos cB] at h
    cases h
    exact total_spBounded _ (fun _ => rfl)
  rw [if_neg cB] at h
  by_cases cC : i = 0xC
  · rw [if_pos cC] at h
    cases h
    exact total_spBounded _ (fun _ => rfl)
  rw [if_neg cC] at h
  by_cases cD : i = 0xD
  · rw [if_pos cD] at h
    cases h
    exact spBounded_of_sp _ OP_Dxyn_sp
  rw [if_neg cD] at h
  by_cases cE : i = 0xE
  · rw [if_pos cE] at h
    cases h
    exact fun s s1 h1 hs => entry_spBounded _ _ (tableE_spBounded _) s s1 h1 hs
  rw [if_neg cE] at h
  by_cases cF : i = 0xF
  · rw [if_pos cF] at h
    cases h
    exact fun s s1 h1 hs => entry_spBounded _ _ (tableF_spBounded _) s s1 h1 hs
  rw [if_neg cF] at h
  cases h

/-- A `Cycle` that completes keeps the stack pointer at most 16. -/
theorem Cycle_spBounded : SpBounded Cycle := by
  intro s s1 h hs
  unfold Cycle at h
  obtain ⟨hi, -, h2⟩ := bind_ok _ _ _ h
  obtain ⟨lo, -, h3⟩ := bind_ok _ _ _ h2
  obtain ⟨s3, h4, h5⟩ := bind_ok _ _ _ h3
  cases h5
  rw [(timerStep_frame s3).2.1]
  exact entry_spBounded _ _ (table_spBounded _) _ s3 h4 hs

theorem cycles_spBounded : ∀ n, SpBounded (cycles n) := by
  intro n
  induction n with
  | zero =>
    intro s s1 h hs
    cases h
    exact hs
  | succ n ih =>
    intro s s1 h hs
    obtain ⟨s2, h2, h3⟩ := bind_ok _ _ _ h
    exact ih s2 s1 h3 (Cycle_spBounded s s2 h2 hs)

theorem LoadROM_sp (file : Option (List Nat)) (s s1 : Chip8) (h : LoadROM file s = .ok s1) :
    s1.sp = s.sp := by
  cases file with
  | none =>
    cases h
    rfl
  | some buffer =>
    exact forLoop_sp _ (fun i t t1 ht => writeMemory_sp _ _ _ _ ht) _ _ _ _ h

/-- C22 (as stated) fails on a fresh machine (sp = 0) loaded with the program
00EE: the first `Cycle` decrements sp to 255 and reads `stack[255]`.  It also
fails on the program 2200, which calls itself: sp is 16 after 16 `Cycle`s and
the 17th writes `stack[16]`. -/
theorem stack_access_leaves_range :
    (new 0 (fun _ => 0)).sp = 0 ∧
    fault (LoadROM (some returnImage) (new 0 (fun _ => 0)) >>= cycles 1) =
      some (.stack 255) ∧
    (faultState (LoadROM (some returnImage) (new 0 (fun _ => 0)) >>= cycles 1)).map
      Chip8.sp = some 255 ∧
    (LoadROM (some selfCallImage) (new 0 (fun _ => 0)) >>= cycles 16).toOption.map
      Chip8.sp = some 16 ∧
    fault (LoadROM (some selfCallImage) (new 0 (fun _ => 0)) >>= cycles 17) =
      some (.stack 16) := by
  refine ⟨by decide, by decide, by decide, by decide, by decide⟩

/-- C22 (amended): starting from the freshly constructed machine (sp = 0)
with any program image of at most 3584 bytes loaded, sp is at most 16 in every
state reached by `Cycle` calls that all completed (no access outside an
array), whatever the host wrote to the keypad in between; from every state
with sp at most 16 a `Cycle` that completes ends with sp at most 16; a call
handler that completes wrote the return address to `stack[sp]` with the old sp
in 0..15 and moved sp up by one; a return handler that completes started with
sp in 1..16, moved sp down by one and read `stack[sp - 1]`, an index in
0..15. -/
theorem sp_at_most_16_while_in_range (image : List Nat) (opcode0 : Nat) (rand : Nat → Nat)
    (s : Chip8) (h : Reachable image opcode0 rand s) :
    s.sp ≤ 16 ∧
    (∀ t t1, t.sp ≤ 16 → Cycle t = .ok t1 → t1.sp ≤ 16) ∧
    (∀ t t1, OP_2nnn t = .ok t1 → t.sp < 16 ∧ t1.stack t.sp = t.pc ∧ t1.sp = t.sp + 1) ∧
    (∀ t t1, t.sp < 256 → OP_00EE t = .ok t1 →
      1 ≤ t.sp ∧ t.sp ≤ 16 ∧ t.sp - 1 < 16 ∧ t1.sp = t.sp - 1 ∧
        t1.pc = t.stack (t.sp - 1)) := by
  refine ⟨?_, fun t t1 ht hc => Cycle_spBounded t t1 hc ht, ?_, ?_⟩
  · induction h with
    | loaded s0 _ hload =>
      rw [LoadROM_sp _ _ _ hload]
      exact Nat.zero_le 16
    | cycle s s1 _ hc ih => exact Cycle_spBounded s s1 hc ih
    | keys s keypad _ ih => exact ih
  · intro t t1 h
    simp only [OP_2nnn] at h
    split_ifs at h with hlt
    cases h
    refine ⟨hlt, Function.update_same _ _ _, ?_⟩
    show (t.sp + 1) % 256 = t.sp + 1
    omega
  · intro t t1 h8 h
    simp only [OP_00EE] at h
    split_ifs at h with hlt
    cases h
    have hdec : (t.sp + 256 - 1) % 256 = t.sp - 1 := by omega
    refine ⟨by omega, by omega, by omega, hdec, ?_⟩
    show t.stack ((t.sp + 256 - 1) % 256) = t.stack (t.sp - 1)
    rw [hdec]

/-- Witness for C22: the program 2200 on a fresh machine, one `Cycle`, then
key 3 pressed by the host. -/
theorem sp_at_most_16_while_in_range_witness :
    ∃ s, Reachable selfCallImage 0 (fun _ => 0) s ∧ s.keypad 3 = 1 ∧ s.sp = 1 ∧
      s.sp ≤ 16 := by
  have h0 := LoadROM_ok selfCallImage (new 0 (fun _ => 0)) (by decide)
  obtain ⟨s1, hc, -, hsp, -⟩ := Cycle_call
    { new 0 (fun _ => 0) with
      memory := copied selfCallImage START_ADDRESS (START_ADDRESS + selfCallImage.length)
        (new 0 (fun _ => 0)).memory }
    0x200 (by decide) (by decide) (by decide)
  have hr : Reachable selfCallImage 0 (fun _ => 0)
      { s1 with keypad := fun i => if i = 3 then 1 else 0 } :=
    Reachable.keys _ _ (Reachable.cycle _ _ (Reachable.loaded _ (by decide) h0) hc)
  exact ⟨_, hr, rfl, hsp, (sp_at_most_16_while_in_range _ _ _ _ hr).1⟩

end Chip8
